import Mathlib

/-!
Verification development for the `pdf_text` page-layout analyzer.

The Rust source is shallowly embedded in Lean. Conventions of the embedding:

* `f32` device/em coordinates become exact rationals (`ℚ`).  The source wraps
  coordinates in `NotNan<f32>` and unwraps everywhere, so NaN never flows
  through the analyzed code paths; `ℚ` has no NaN, hence constructors that
  return `Option` only because of `NotNan` become total.  Decimal literals of
  the source (`0.2`, `0.3`, `0.5`, ...) are embedded as the exact rationals
  they denote.
* Rust slices become `List`s; in-place sorting becomes a stable insertion
  sort keyed the way the source's comparator is (`sort_unstable_by` on
  `partial_cmp` of the key).  The source's order on ties is unspecified;
  where a theorem depends on concrete evaluation the inputs avoid ties that
  could change the result.
* Code paths on which the Rust program panics (`unwrap` on `None`, indexing
  an empty slice) are marked `-- panic path` and return a harmless default;
  no claim below exercises such a path.
* The general recursion of `split` is embedded with an explicit fuel
  parameter; exhausted fuel returns the unsplit `Final` leaf (which keeps
  every index and introduces no `Grid`), so all invariants proved below hold
  for every fuel, and on the concrete inputs evaluated in witnesses and
  counterexamples the fuel is ample.
-/

namespace PdfText

/-- `pathfinder_geometry::rect::RectF`: stored as origin `(ox, oy)` and
lower-right `(lx, ly)` exactly as `RectF::from_points` stores its two
arguments; `min_x/max_x/min_y/max_y/width/height/center` read these fields
without normalizing, as pathfinder does. -/
structure Rect where
  ox : ℚ
  oy : ℚ
  lx : ℚ
  ly : ℚ
deriving DecidableEq, Repr

namespace Rect

def min_x (r : Rect) : ℚ := r.ox

def max_x (r : Rect) : ℚ := r.lx

def min_y (r : Rect) : ℚ := r.oy

def max_y (r : Rect) : ℚ := r.ly

def width (r : Rect) : ℚ := r.lx - r.ox

def height (r : Rect) : ℚ := r.ly - r.oy

/-- y-coordinate of `RectF::center` (= origin + size/2). -/
def center_y (r : Rect) : ℚ := (r.oy + r.ly) / 2

/-- `RectF::union_rect`: componentwise min of origins, max of lower-rights. -/
def union_rect (r s : Rect) : Rect :=
  ⟨min r.ox s.ox, min r.oy s.oy, max r.lx s.lx, max r.ly s.ly⟩

/-- A rect is normalized when its origin is its top-left corner; every rect
produced by the renderer for a text span is of this shape. -/
def Normalized (r : Rect) : Prop := r.ox ≤ r.lx ∧ r.oy ≤ r.ly

instance (r : Rect) : Decidable r.Normalized := by
  unfold Normalized; infer_instance

end Rect

/-- A font reference (`Arc<FontEntry>` in the source).  `id` stands for the
`Arc` pointer identity that `classify` compares with `Arc::as_ptr`;
`name` is `FontEntry::name`. -/
structure Font where
  name : String
  id : Nat
deriving DecidableEq, Repr

/-- One glyph of a `TextSpan` (`pdf_render::TextChar` plus the slice of the
span's text that belongs to it).  The source stores a byte `offset` into
`span.text` and recovers the glyph's text as
`span.text[offset..next.offset]`; the embedding carries that extracted slice
directly as `text`.  `pos`/`width` are the em-space horizontal placement. -/
structure TextChar where
  text : String
  pos : ℚ
  width : ℚ
deriving DecidableEq, Repr

/-- `pathfinder_geometry::transform2d::Transform2F`, row-major:
matrix `[[m11, m12], [m21, m22]]` and translation vector `(vx, vy)`. -/
structure Transform2F where
  m11 : ℚ
  m12 : ℚ
  m21 : ℚ
  m22 : ℚ
  vx : ℚ
  vy : ℚ
deriving DecidableEq, Repr

/-- The identity transform (`Transform2F::default`). -/
def Transform2F.id : Transform2F := ⟨1, 0, 0, 1, 0, 0⟩

/-- x-component of `matrix.inverse() * vector`, the `x_off` computed at the
top of `concat_text` and `analyze_word_gap`.  In `ℚ` a singular matrix gives
division by zero (= 0); the source would produce non-finite floats there
(panic path downstream). -/
def Transform2F.x_off (t : Transform2F) : ℚ :=
  (t.m22 * t.vx - t.m12 * t.vy) / (t.m11 * t.m22 - t.m12 * t.m21)

/-- x-component of `matrix * Vector2F::new(x, 0)`. -/
def Transform2F.apply_x (t : Transform2F) (x : ℚ) : ℚ := t.m11 * x

/-- `pdf_render::TextSpan`, restricted to the fields the analyzer reads:
the device-space `rect`, the `font_size`, the optional `font`, the raw
`text` (used by `classify`), the glyph list and the em→device `transform`. -/
structure TextSpan where
  rect : Rect
  font_size : ℚ
  font : Option Font
  text : String
  chars : List TextChar
  transform : Transform2F
deriving DecidableEq, Repr

/-- A box of the tree builder: `(RectF, usize)` — the span's rect paired
with the span's index in the input sequence. -/
abbrev BoxN := Rect × Nat

/-- `util::avg`. -/
def avg (l : List ℚ) : Option ℚ :=
  if l.isEmpty then none else some (l.sum / l.length)

/-- `util::is_number`: nonempty and all ASCII digits. -/
def is_number (s : String) : Bool :=
  s.length > 0 && s.data.all (fun c => ('0' ≤ c && c ≤ '9'))

/-- Rust's `char::is_whitespace` (Unicode `White_Space`).  Lean's
`Char.isWhitespace` covers only a subset, so the full set is spelled out. -/
def rust_is_whitespace (c : Char) : Bool :=
  let n := c.toNat
  (0x09 ≤ n && n ≤ 0x0D) || n == 0x20 || n == 0x85 || n == 0xA0 ||
  n == 0x1680 || (0x2000 ≤ n && n ≤ 0x200A) || n == 0x2028 ||
  n == 0x2029 || n == 0x202F || n == 0x205F || n == 0x3000

/-- Rust's `str::contains(needle)` for a literal needle (substring test). -/
def contains_sub (hay needle : String) : Bool :=
  (List.range (hay.data.length + 1)).any
    (fun i => needle.data.isPrefixOf (hay.data.drop i))

/-- `sort_x`: stable sort by `rect.min_x` (the source's
`sort_unstable_by(partial_cmp(min_x))`; order of equal keys is unspecified
there, deterministic and stable here). -/
def sort_x (boxes : List BoxN) : List BoxN :=
  boxes.insertionSort (fun a b => a.1.min_x ≤ b.1.min_x)

/-- `sort_y`: stable sort by `rect.min_y`. -/
def sort_y (boxes : List BoxN) : List BoxN :=
  boxes.insertionSort (fun a b => a.1.min_y ≤ b.1.min_y)

/-! ## `classify.rs` -/

/-- `classify::Class`. -/
inductive Class where
  | Number
  | Header
  | Paragraph
  | Mixed
deriving DecidableEq, Repr

/-- `classify::Tri` (also in `util.rs`). -/
inductive Tri where
  | F
  | T
  | Maybe (fraction : ℚ)
  | Unknown
deriving DecidableEq, Repr

/-- `classify::TriCount`. -/
structure TriCount where
  tru : Nat
  fal : Nat
deriving DecidableEq, Repr

def TriCount.new : TriCount := ⟨0, 0⟩

def TriCount.add (t : TriCount) (b : Bool) : TriCount :=
  match b with
  | false => ⟨t.tru, t.fal + 1⟩
  | true => ⟨t.tru + 1, t.fal⟩

def TriCount.count (t : TriCount) : Tri :=
  match t.fal, t.tru with
  | 0, 0 => Tri.Unknown
  | 0, _ => Tri.T
  | _, 0 => Tri.F
  | f, tr => Tri.Maybe ((tr : ℚ) / ((tr : ℚ) + (f : ℚ)))

/-- Accumulator of `classify`'s loop: the three `TriCount`s plus the first
observed font pointer (`first_font`, null until a font is seen). -/
structure ClassifyAcc where
  bold : TriCount
  numeric : TriCount
  uniform : TriCount
  first_font : Option Nat
deriving DecidableEq, Repr

/-- One iteration of `classify`'s `for s in spans` loop. -/
def classify_step (acc : ClassifyAcc) (s : TextSpan) : ClassifyAcc :=
  let acc := { acc with numeric := acc.numeric.add (is_number s.text) }
  match s.font with
  | some font =>
    let acc := { acc with bold := acc.bold.add (contains_sub font.name "Bold") }
    match acc.first_font with
    | none => { acc with first_font := some font.id }
    | some p => { acc with uniform := acc.uniform.add (font.id == p) }
  | none => acc

/-- `classify::classify`. -/
def classify (spans : List TextSpan) : Class :=
  let acc := spans.foldl classify_step ⟨TriCount.new, TriCount.new, TriCount.new, none⟩
  let uniform := acc.uniform.add true
  match acc.numeric.count, acc.bold.count, uniform.count with
  | Tri.T, _, Tri.T => Class.Number
  | _, Tri.T, Tri.T => Class.Header
  | _, Tri.F, Tri.T => Class.Paragraph
  | _, Tri.F, _ => Class.Paragraph
  | _, Tri.Maybe _, _ => Class.Paragraph
  | _, _, _ => Class.Mixed

/-! ## `node/gap.rs` -/

/-- The running scan of `gap_list` after the first box was consumed:
`last_max` is the running maximum of span ends, `idx` the enumeration index
plus one.  Emits `(gap_start, gap_end, box_index)`. -/
def gap_list_go (f : Rect → ℚ × ℚ) : ℚ → Nat → List BoxN → List (ℚ × ℚ × Nat)
  | _, _, [] => []
  | last_max, idx, b :: rest =>
    let (mn, mx) := f b.1
    let here := if mn > last_max then [(last_max, mn, idx)] else []
    here ++ gap_list_go f (max mx last_max) (idx + 1) rest

/-- `gap::gap_list`: all gaps of the (already sorted) boxes along the axis
selected by `f`, as `(start, end, index of the box after the gap)`.
The source unwraps the first box; an empty list is a panic path. -/
def gap_list (boxes : List BoxN) (f : Rect → ℚ × ℚ) : List (ℚ × ℚ × Nat) :=
  match boxes with
  | [] => [] -- panic path (`boxes.next().unwrap()`)
  | b :: rest => gap_list_go f (f b.1).2 1 rest

/-- The running scan of `gaps` (same walk as `gap_list_go`, emitting the
midpoint of every gap at least `threshold` wide). -/
def gaps_go (threshold : ℚ) (f : Rect → ℚ × ℚ) : ℚ → List BoxN → List ℚ
  | _, [] => []
  | last_max, b :: rest =>
    let (mn, mx) := f b.1
    let here := if mn - last_max ≥ threshold then [(last_max + mn) / 2] else []
    here ++ gaps_go threshold f (max mx last_max) rest

/-- `gap::gaps`: midpoints of all gaps at least `threshold` wide. -/
def gaps (threshold : ℚ) (boxes : List BoxN) (f : Rect → ℚ × ℚ) : List ℚ :=
  match boxes with
  | [] => [] -- panic path
  | b :: rest => gaps_go threshold f (f b.1).2 rest

/-- `Iterator::max_by_key` on the gap width: keeps the **last** maximal
element, as Rust's `max_by_key` does. -/
def max_by_gap_width (l : List (ℚ × ℚ × Nat)) : Option (ℚ × ℚ × Nat) :=
  l.foldl
    (fun best g =>
      match best with
      | none => some g
      | some b => if g.2.1 - g.1 ≥ b.2.1 - b.1 then some g else some b)
    none

/-- `gap::max_gap`: size and midpoint of the widest gap. -/
def max_gap (boxes : List BoxN) (f : Rect → ℚ × ℚ) : Option (ℚ × ℚ) :=
  (max_by_gap_width (gap_list boxes f)).map
    (fun g => (g.2.1 - g.1, (g.1 + g.2.1) / 2))

def dist_x (boxes : List BoxN) : Option (ℚ × ℚ) :=
  max_gap boxes (fun r => (r.min_x, r.max_x))

def dist_y (boxes : List BoxN) : Option (ℚ × ℚ) :=
  max_gap boxes (fun r => (r.min_y, r.max_y))

/-- `gap::top_bottom_gap`: the source's `match` on the first element of the
vertical gap list, with `gaps.last()` ranging over the **remaining** gaps. -/
def top_bottom_gap (boxes : List BoxN) (bbox : Rect) : Option Nat × Option Nat :=
  if boxes.length < 2 then (none, none)
  else
    let top_limit := bbox.min_y + bbox.height * (1/5)
    let bottom_limit := bbox.min_y + bbox.height * (4/5)
    match gap_list boxes (fun r => (r.min_y, r.max_y)) with
    | [] => (none, none)
    | g :: rest =>
      if g.1 < top_limit then
        match rest.getLast? with
        | some g2 =>
          if g2.1 > bottom_limit then (some g.2.2, some g2.2.2)
          else (some g.2.2, none)
        | none => (some g.2.2, none)
      else if g.1 > bottom_limit then (none, some g.2.2)
      else (none, none)

/-- `gap::left_right_gap` (same shape along x). -/
def left_right_gap (boxes : List BoxN) (bbox : Rect) : Option Nat × Option Nat :=
  if boxes.length < 2 then (none, none)
  else
    let left_limit := bbox.min_x + bbox.width * (1/5)
    let right_limit := bbox.min_x + bbox.width * (4/5)
    match gap_list boxes (fun r => (r.min_x, r.max_x)) with
    | [] => (none, none)
    | g :: rest =>
      if g.1 < left_limit then
        match rest.getLast? with
        | some g2 =>
          if g2.1 > right_limit then (some g.2.2, some g2.2.2)
          else (some g.2.2, none)
        | none => (some g.2.2, none)
      else if g.1 > right_limit then (none, some g.2.2)
      else (none, none)

/-! ## `node/line.rs` — ruled-line analysis -/

/-- Result of `analyze_lines`: clustered horizontal / vertical ruling
coordinates (as `(start, end)` ranges) plus the boolean line grid. -/
structure Lines where
  hlines : List (ℚ × ℚ)
  vlines : List (ℚ × ℚ)
  line_grid : List Bool
deriving DecidableEq, Repr

/-- Ascending deduplicated list of coordinates (`BTreeSet` iteration). -/
def sorted_unique (l : List ℚ) : List ℚ :=
  ((l.insertionSort (· ≤ ·)).foldr
    (fun x acc => if acc.head? = some x then acc else x :: acc) [])

/-- `line::dedup`: greedy clustering of sorted coordinates, merging a
successor within `10.0` of the last merged value; yields `(start, last)`. -/
def line_dedup_go : ℚ → ℚ → List ℚ → List (ℚ × ℚ)
  | start, last, [] => [(start, last)]
  | start, last, p :: rest =>
    if last + 10 > p then line_dedup_go start p rest
    else (start, last) :: line_dedup_go p p rest

def line_dedup (l : List ℚ) : List (ℚ × ℚ) :=
  match l with
  | [] => []
  | x :: rest => line_dedup_go x x rest

/-- Index of the first cluster satisfying `p`, or `len` (Rust
`position(..).unwrap_or(len)`). -/
def position_or_len (l : List (ℚ × ℚ)) (p : ℚ × ℚ → Bool) : Nat :=
  (l.findIdx? p).getD l.length

/-- Write `true` at flat index `i` of the grid. -/
def grid_set (g : List Bool) (i : Nat) : List Bool := g.set i true

/-- Marking pass of `analyze_lines` for one stroke. -/
def mark_stroke (hlines vlines : List (ℚ × ℚ)) (grid : List Bool)
    (s : ℚ × ℚ × ℚ × ℚ) : List Bool :=
  let (x1, y1, x2, y2) := s
  if x1 == x2 then
    let v_idx := position_or_len vlines (fun ab => ab.1 ≤ x1 && x1 ≤ ab.2)
    let h_start := position_or_len hlines (fun ab => y1 ≥ ab.1)
    let h_end := position_or_len hlines (fun ab => y2 ≤ ab.2)
    ((List.range hlines.length).filter (fun h => h_start ≤ h && h < h_end)).foldl
      (fun g h => grid_set g (v_idx * hlines.length + h)) grid
  else if y1 == y2 then
    let h_idx := position_or_len hlines (fun ab => ab.1 ≤ y1 && y1 ≤ ab.2)
    let v_start := position_or_len vlines (fun ab => x1 ≥ ab.1)
    let v_end := position_or_len vlines (fun ab => x2 ≤ ab.2)
    ((List.range vlines.length).filter (fun v => v_start ≤ v && v < v_end)).foldl
      (fun g v => grid_set g (v * hlines.length + h_idx)) grid
  else grid

/-- `line::analyze_lines`. -/
def analyze_lines (strokes : List (ℚ × ℚ × ℚ × ℚ)) : Lines :=
  let vcoords := sorted_unique ((strokes.filter (fun s => s.1 == s.2.2.1)).map (·.1))
  let hcoords := sorted_unique
    ((strokes.filter (fun s => !(s.1 == s.2.2.1) && s.2.1 == s.2.2.2)).map (·.2.1))
  let hlines := line_dedup hcoords
  let vlines := line_dedup vcoords
  let grid0 := List.replicate (vlines.length * hlines.length) false
  let grid := strokes.foldl (mark_stroke hlines vlines) grid0
  ⟨hlines, vlines, grid⟩

/-! ## The `table` crate (not part of this repository's sources)

Modelled from the spec: `Table<T>` is a dense logical `(rows × cols)` grid
of cells; each cell carries a value `T` and a `(rowspan, colspan)`;
`set_cell` at `(r, c)` overwrites the covered region (every existing cell
whose covered region intersects the region of the new cell is removed, per
the spec invariant that row/col positions are occupied by at most one cell
and spans do not overlap).  Cells are kept as an association list keyed by
their anchor `(row, col)`, in insertion order — `values()` iterates them in
that order. -/

structure TableCell (α : Type) where
  value : α
  rowspan : Nat
  colspan : Nat
deriving DecidableEq, Repr

structure Table (α : Type) where
  rows : Nat
  cols : Nat
  cells : List ((Nat × Nat) × TableCell α)
deriving DecidableEq, Repr

/-- Modelled from the spec: `Table::empty(rows, cols)`. -/
def Table.empty (α : Type) (rows cols : Nat) : Table α := ⟨rows, cols, []⟩

/-- Whether the region `[r, r+rs) × [c, c+cs)` intersects the region covered
by the cell anchored at `p`. -/
def cell_overlaps (r c rs cs : Nat) (p : (Nat × Nat) × TableCell α) : Bool :=
  p.1.1 < r + rs && r < p.1.1 + p.2.rowspan &&
  p.1.2 < c + cs && c < p.1.2 + p.2.colspan

/-- Modelled from the spec: `Table::set_cell(value, row, col, rowspan,
colspan)` overwrites the covered region and records the new cell. -/
def Table.set_cell (t : Table α) (v : α) (r c rs cs : Nat) : Table α :=
  ⟨t.rows, t.cols,
    t.cells.filter (fun p => !cell_overlaps r c rs cs p) ++ [((r, c), ⟨v, rs, cs⟩)]⟩

/-- Modelled from the spec: `Table::get_cell_value_mut(row, col)` — the value
of the cell anchored at `(row, col)`, if any. -/
def Table.get_cell_value (t : Table α) (r c : Nat) : Option α :=
  (t.cells.find? (fun p => p.1 == (r, c))).map (fun p => p.2.value)

/-- Replace the first element satisfying `p` by `f` of it (the shape of a
mutation through a single `&mut` reference). -/
def modify_first (p : α → Bool) (f : α → α) : List α → List α
  | [] => []
  | x :: xs => if p x then f x :: xs else x :: modify_first p f xs

/-- In-place mutation through `get_cell_value_mut`: update the value of the
(first, and by construction only) cell anchored at `(r, c)`. -/
def Table.update_cell_value (t : Table α) (r c : Nat) (f : α → α) : Table α :=
  ⟨t.rows, t.cols,
    modify_first (fun p => p.1 == (r, c))
      (fun p => (p.1, { p.2 with value := f p.2.value })) t.cells⟩

/-- `Table::values()`: the cells in storage order. -/
def Table.values (t : Table α) : List (TableCell α) := t.cells.map (·.2)

/-- `Table::flat_map`: map cell values through `f`, dropping cells on
`none`, keeping anchors and spans. -/
def Table.flat_map_cells (t : Table α) (f : α → Option β) : Table β :=
  ⟨t.rows, t.cols,
    t.cells.filterMap (fun p => (f p.2.value).map
      (fun v => (p.1, ⟨v, p.2.rowspan, p.2.colspan⟩)))⟩

/-! ## `node.rs` — the layout tree -/

/-- `node::NodeTag` with its derived order
`Singleton < Line < Paragraph < Complex`. -/
inductive NodeTag where
  | Singleton
  | Line
  | Paragraph
  | Complex
deriving DecidableEq, Repr

def NodeTag.toNat : NodeTag → Nat
  | .Singleton => 0
  | .Line => 1
  | .Paragraph => 2
  | .Complex => 3

instance : LE NodeTag := ⟨fun a b => a.toNat ≤ b.toNat⟩

instance : DecidableRel (fun (a b : NodeTag) => a ≤ b) :=
  fun a b => inferInstanceAs (Decidable (a.toNat ≤ b.toNat))

/-- `node::Node`. -/
inductive Node where
  | Final (indices : List Nat)
  | Grid (x : List ℚ) (y : List ℚ) (cells : List Node) (tag : NodeTag)
  | TableNode (table : Table (List Nat))
deriving Repr

/-- `Node::tag`. -/
def Node.tag : Node → NodeTag
  | .Grid _ _ _ tag => tag
  | .TableNode _ => NodeTag.Complex
  | .Final _ => NodeTag.Singleton

/-- `Node::singleton`. -/
def Node.singleton (boxes : List BoxN) : Node :=
  Node.Final (boxes.map (·.2))

mutual

/-- `Node::indices` (depth-first collection; the accumulating `out`
parameter of the source becomes the returned list). -/
def Node.indices : Node → List Nat
  | .Final indices => indices
  | .Grid _ _ cells _ => Node.indices_list cells
  | .TableNode table => table.values.flatMap (·.value)

/-- The `for n in cells` loop of `Node::indices`. -/
def Node.indices_list : List Node → List Nat
  | [] => []
  | n :: rest => Node.indices n ++ Node.indices_list rest

end

/-! ## `node.rs` — the interval `Span` used by `split2` -/

/-- `node::Span`: a one-dimensional interval.  `stop` is the source's `end`
(a Lean keyword).  `Span::new` swaps a reversed pair and fails only on NaN,
which `ℚ` excludes, so the constructors are total here. -/
structure SpanI where
  start : ℚ
  stop : ℚ
deriving DecidableEq, Repr

def SpanI.new (a b : ℚ) : SpanI :=
  if a > b then ⟨b, a⟩ else ⟨a, b⟩

def SpanI.horiz (r : Rect) : SpanI := SpanI.new r.min_x r.max_x

def SpanI.vert (r : Rect) : SpanI := SpanI.new r.min_y r.max_y

def SpanI.intersect (s o : SpanI) : Option SpanI :=
  if s.start ≤ o.stop ∧ o.start ≤ s.stop then
    some ⟨max s.start o.start, min s.stop o.stop⟩
  else none

def SpanI.union (s o : SpanI) : Option SpanI :=
  if s.start ≤ o.stop ∧ o.start ≤ s.stop then
    some ⟨min s.start o.start, max s.stop o.stop⟩
  else none

/-! ## `node/table.rs` — `split2`, the table detector -/

/-- `split2`'s `LineTag`. -/
inductive LineTag where
  | Unknown
  | Text
  | TableT
deriving DecidableEq, Repr

/-- One analyzed line: tag, union y-span, and the runs
`(x-span, contained indices)` in x order. -/
abbrev LineRec := LineTag × SpanI × List (SpanI × List Nat)

/-- The run-clustering loop of `build_line`: union each box's x-span into
the current run, starting a new run when the union fails; the union y-span
grows over all boxes. -/
def build_line_go : SpanI → SpanI → List Nat → List (SpanI × List Nat) →
    List BoxN → SpanI × List (SpanI × List Nat)
  | x, y, items, line, [] => (y, line ++ [(x, items)])
  | x, y, items, line, b :: rest =>
    let y2 := (y.union (SpanI.vert b.1)).getD (SpanI.vert b.1)
    -- the union of vertical spans is unwrapped by the source (boxes of one
    -- line overlap in y by construction of the grouping pass; `getD`
    -- covers the panic path)
    let x2 := SpanI.horiz b.1
    match x.union x2 with
    | some u => build_line_go u y2 (items ++ [b.2]) line rest
    | none => build_line_go x2 y2 [b.2] (line ++ [(x, items)]) rest

/-- `split2`'s `build_line` closure: cluster a (x-sorted) line into runs,
compute the union y-span, and tag the line by its widest inter-run gap
against `0.3 ×` the mean font size. -/
def build_line (spans : List TextSpan) (boxes : List BoxN) : LineRec :=
  match boxes with
  | [] => (LineTag.Unknown, ⟨0, 0⟩, []) -- panic path (`boxes[0]`)
  | b0 :: rest =>
    let (y, line) :=
      build_line_go (SpanI.horiz b0.1) (SpanI.vert b0.1) [b0.2] [] rest
    let f := (avg ((boxes.filterMap (fun b => spans.get? b.2)).map
      (·.font_size))).getD 0 -- panic path when no index is valid
    let gaps_br := (line.zip line.tail).map (fun lr => lr.2.1.start - lr.1.1.stop)
    let tag :=
      match gaps_br.max? with
      | none => LineTag.Unknown
      | some g => if g < 3/10 * f then LineTag.Text else LineTag.TableT
    (tag, y, line)

/-- The y-grouping loop at the top of `split2`: extend the current line
while the next box's vertical span intersects the evolving intersection;
close (and x-sort) the line otherwise. -/
def group_lines_go (spans : List TextSpan) :
    SpanI → List BoxN → List BoxN → List LineRec
  | _, cur, [] => [build_line spans (sort_x cur)]
  | y, cur, b :: rest =>
    let y2 := SpanI.vert b.1
    match y.intersect y2 with
    | some overlap => group_lines_go spans overlap (cur ++ [b]) rest
    | none =>
      build_line spans (sort_x cur) :: group_lines_go spans y2 [b] rest

/-- Both passes over the y-sorted boxes: group into lines and analyze each. -/
def split2_lines (spans : List TextSpan) (boxes : List BoxN) : List LineRec :=
  match sort_y boxes with
  | [] => [] -- panic path (`boxes[0]`)
  | b0 :: rest => group_lines_go spans (SpanI.vert b0.1) [b0] rest

/-- Column inference step for one run: tighten every intersecting column to
the intersection; append the run's span as a new column if none matched. -/
def scan_columns_run (columns : List SpanI) (x : SpanI) : List SpanI :=
  let found := columns.countP (fun c => (c.intersect x).isSome)
  let columns := columns.map (fun c => ((c.intersect x)).getD c)
  if found = 0 then columns ++ [x] else columns

/-- Column inference over all runs of all lines of a table section. -/
def scan_columns (lines : List LineRec) : List SpanI :=
  lines.foldl (fun cols l => l.2.2.foldl (fun cs run => scan_columns_run cs run.1) cols) []

/-- The `combine` decision of the row-assignment loop, verbatim:
`prev_end.map(|y| if span.start - y < d_threshold { !hlines.any(mid between) } else { false }).unwrap_or(false)`. -/
def assign_combine (hlines : List (ℚ × ℚ)) (d_threshold : ℚ)
    (prev_end : Option ℚ) (span : SpanI) : Bool :=
  (prev_end.map (fun y =>
    if span.start - y < d_threshold then
      !(hlines.any (fun ab =>
        let l := (1/2) * (ab.1 + ab.2)
        y < l && span.start > l))
    else false)).getD false

/-- Indices of the columns intersecting a run's x-span, in column order. -/
def intersecting_cols (columns : List SpanI) (x : SpanI) : List Nat :=
  (columns.enum.filter (fun ic => (x.intersect ic.2).isSome)).map (·.1)

/-- Processing of one run inside the row-assignment loop: find first/last
intersecting column, then either extend the previous row's cell (when
combining and it exists) or `set_cell` a fresh cell with rowspan 1. -/
def assign_run (columns : List SpanI) (combine : Bool) (row : Nat)
    (table : Table (List Nat)) (run : SpanI × List Nat) : Table (List Nat) :=
  match intersecting_cols columns run.1 with
  | [] => table -- panic path (`cols.next().unwrap()`)
  | first_col :: more =>
    let last_col := more.getLast?.getD first_col
    match (if combine then table.get_cell_value row first_col else none) with
    | some _cell =>
      -- `cell.extend_from_slice(parts)` through the `&mut` reference
      table.update_cell_value row first_col (· ++ run.2)
    | none =>
      let colspan := last_col - first_col + 1
      table.set_cell run.2 row first_col 1 colspan

/-- State of the row-assignment loop. -/
structure AssignSt where
  row : Nat
  prev_end : Option ℚ
  table : Table (List Nat)

/-- One iteration of `for (_, span, line) in lines` of the row assignment. -/
def assign_step (lines_info : Lines) (d_threshold : ℚ) (columns : List SpanI)
    (st : AssignSt) (l : LineRec) : AssignSt :=
  let combine := assign_combine lines_info.hlines d_threshold st.prev_end l.2.1
  let row := if combine then st.row else st.row + 1
  let table := l.2.2.foldl (assign_run columns combine row) st.table
  ⟨row, some l.2.1.stop, table⟩

/-- Build the `Node::Table` for one table section. -/
def section_table (_spans : List TextSpan) (lines_info : Lines)
    (lines : List LineRec) : SpanI × Node :=
  let columns := scan_columns lines
  let yspans := lines.map (·.2.1)
  let avg_vgap := avg ((yspans.zip yspans.tail).map (fun ab => ab.2.start - ab.1.stop))
  let columns := columns.insertionSort (fun a b => a.start ≤ b.start)
  let d_threshold := avg_vgap.getD 0
  let table0 := Table.empty (List Nat) lines.length columns.length
  let st := lines.foldl (assign_step lines_info d_threshold columns)
    ⟨0, none, table0⟩
  let y : SpanI :=
    match yspans.head?, yspans.getLast? with
    | some a, some b => ⟨a.start, b.stop⟩
    | _, _ => ⟨0, 0⟩ -- panic path (`lines[0]`, empty section)
  (y, Node.TableNode st.table)

/-- A text line outside a table section becomes a `Final` of its indices. -/
def line_final (l : LineRec) : SpanI × Node :=
  (l.2.1, Node.Final (l.2.2.flatMap (·.2)))

/-- The section-carving loop of `split2`: find the first `Unknown`/`Table`
line, extend the section until a `Text` line, emit the preceding text lines
as `Final`s and the section as a `Table`; repeat on the rest. -/
def vparts_go (spans : List TextSpan) (lines_info : Lines) :
    Nat → List LineRec → List (SpanI × Node)
  | 0, ls => ls.map line_final -- fuel exhaustion (cannot happen, see below)
  | fuel + 1, ls =>
    match ls.findIdx? (fun l => l.1 == LineTag.Unknown || l.1 == LineTag.TableT) with
    | none => ls.map line_final
    | some p =>
      let pre := ls.take p
      let after := ls.drop p
      let sec_len := 1 + ((after.drop 1).findIdx? (fun l => l.1 == LineTag.Text)).getD
        (after.length - 1)
      let sec := after.take sec_len
      let rest := after.drop sec_len
      pre.map line_final ++ [section_table spans lines_info sec] ++
        vparts_go spans lines_info fuel rest

/-- `node/table.rs::split` (called `split2` from `node.rs`): the table
detector.  Non-recursive in the source; the carving loop gets fuel
`lines.length + 1`, which suffices since every round consumes at least one
line. -/
def split2 (boxes : List BoxN) (spans : List TextSpan) (lines_info : Lines) : Node :=
  let lines := split2_lines spans boxes
  let vparts := vparts_go spans lines_info (lines.length + 1) lines
  if vparts.length > 1 then
    let y := (vparts.zip vparts.tail).map
      (fun ab => (1/2) * (ab.1.1.stop + ab.2.1.start))
    Node.Grid [] y (vparts.map (·.2)) NodeTag.Complex
  else
    match vparts.getLast? with
    | some p => p.2
    | none => Node.Final [] -- panic path (`vparts.pop().unwrap()`, empty input)

/-! ## `node.rs` — `split_by`, `overlapping_lines`, `split`, `build` -/

/-- `node::split_by` / `SplitBy`: cut the list at each point `p` — the cut
position is the first element whose key exceeds `p` — yielding
`points.length + 1` pieces whose concatenation is the input. -/
def split_by (f : Rect → ℚ) : List BoxN → List ℚ → List (List BoxN)
  | data, [] => [data]
  | data, p :: ps =>
    let idx := (data.findIdx? (fun b => f b.1 > p)).getD data.length
    data.take idx :: split_by f (data.drop idx) ps

/-- The scanning loop of `overlapping_lines`: close the current line at the
first box whose vertical center exceeds `y_center + avg_height/2`; each
closed line is x-sorted, contributes its union bbox's `max_y` as a y-split
and becomes a `Final`.  Terminates because every closed line is nonempty
(fuel covers the degenerate `avg_height < 0` case, a panic path in the
source: `reduce` of an empty segment). -/
def overlapping_lines_go (avg_height : ℚ) :
    Nat → ℚ → List BoxN → List Node × List ℚ
  | 0, _, bs => ([Node.singleton (sort_x bs)], []) -- fuel exhaustion
  | fuel + 1, y_center, bs =>
    match bs.findIdx? (fun b => b.1.center_y > (1/2) * avg_height + y_center) with
    | none => ([Node.singleton (sort_x bs)], [])
    | some i =>
      let seg := sort_x (bs.take i)
      match (seg.map (·.1)).foldl (fun acc r =>
          match acc with
          | none => some r
          | some a => some (a.union_rect r)) none with
      | none => ([Node.Final []], []) -- panic path (`reduce().unwrap()`, i = 0)
      | some bbox =>
        let rest := bs.drop i
        let yc := (rest.headD (⟨0, 0, 0, 0⟩, 0)).1.center_y
        let (nodes, splits) := overlapping_lines_go avg_height fuel yc rest
        (Node.singleton seg :: nodes, bbox.max_y :: splits)

/-- The final dispatch of `overlapping_lines` on the number of closed
lines. -/
def overlapping_result (lines : List Node) (y_splits : List ℚ) : Node :=
  match lines with
  | [] => Node.singleton []
  | [l] => l
  | _ => Node.Grid [] y_splits lines NodeTag.Paragraph

/-- `line::overlapping_lines`. -/
def overlapping_lines (boxes : List BoxN) : Node :=
  let bs := sort_y boxes
  match avg (bs.map (fun b => b.1.height)) with
  | none => Node.Final [] -- panic path (`avg(..).unwrap()`, empty input)
  | some avg_height =>
    match bs with
    | [] => Node.Final [] -- unreachable with `avg` defined
    | b0 :: _ =>
      let res := overlapping_lines_go avg_height (bs.length + 1) b0.1.center_y bs
      overlapping_result res.1 res.2

/-- `node::split`, the recursive XY-cut.  `fuel` bounds the recursion depth
(the source recurses unboundedly and asserts strict shrinkage at runtime);
exhausted fuel yields the unsplit leaf. -/
def split (spans : List TextSpan) (lines_info : Lines) :
    Nat → List BoxN → Node
  | 0, boxes => Node.singleton boxes -- fuel exhaustion
  | fuel + 1, boxes =>
    if boxes.length < 2 then Node.singleton boxes
    else
      let bx := sort_x boxes
      let max_x_gap := dist_x bx
      let bY := sort_y bx
      let max_y_gap := dist_y bY
      -- x_y_ratio = 1.0 in the source; multiplications by it are dropped
      match max_x_gap, max_y_gap with
      | none, none => Node.singleton (sort_x bY)
      | mxg, myg =>
        let max_gap_v :=
          match mxg, myg with
          | some xg, some yg => max xg.1 yg.1
          | some xg, none => xg.1
          | none, some yg => yg.1
          | none, none => 0 -- unreachable (handled above)
        let x_threshold := max (max_gap_v * (1/2)) 1
        let y_threshold := max (max_gap_v * (1/2)) (1/10)
        let y_gaps := gaps y_threshold bY (fun r => (r.min_y, r.max_y))
        let bx2 := sort_x bY
        let x_gaps := gaps x_threshold bx2 (fun r => (r.min_x, r.max_x))
        if x_gaps.length = 0 ∧ y_gaps.length = 0 then overlapping_lines bx2
        else if x_gaps.length > 1 ∧ y_gaps.length > 1 then
          split2 bx2 spans lines_info
        else
          let bY2 := sort_y bx2
          let rows := split_by (fun r => r.min_y) bY2 y_gaps
          let cells :=
            if x_gaps.length > 0 then
              rows.flatMap (fun row =>
                (split_by (fun r => r.min_x) (sort_x row) x_gaps).map
                  (fun cell => split spans lines_info fuel (sort_y cell)))
            else
              rows.map (fun row => split spans lines_info fuel row)
          let tag :=
            if y_gaps.length = 0 then
              if cells.all (fun n => n.tag ≤ NodeTag.Line) then NodeTag.Line
              else NodeTag.Complex
            else if x_gaps.length = 0 then
              if cells.all (fun n => n.tag ≤ NodeTag.Line) then NodeTag.Paragraph
              else NodeTag.Complex
            else NodeTag.Complex
          Node.Grid x_gaps y_gaps cells tag

/-- `node::exclude_header_and_footer`. -/
def exclude_header_and_footer (boxes : List BoxN) (bbox : Rect)
    (spans : List TextSpan) : List BoxN :=
  let avg_font_size := (avg (spans.map (·.font_size))).getD 0
  -- panic path: `avg(..).unwrap()` with no spans; `build` guards emptiness
  let probably_header := fun (bs : List BoxN) =>
    let cl := classify (bs.filterMap (fun b => spans.get? b.2))
    if cl = Class.Header ∨ cl = Class.Number then true
    else
      let f := (avg ((bs.filterMap (fun b => spans.get? b.2)).map
        (·.font_size))).getD 0 -- panic path on an empty slice
      decide (f > avg_font_size)
  let probably_footer := fun (bs : List BoxN) =>
    let bs := sort_x bs
    let x_gaps := gaps avg_font_size bs (fun r => (r.min_x, r.max_x))
    (split_by (fun r => r.min_x) bs x_gaps).all probably_header
  let bs := sort_y boxes
  let (top, bottom) := top_bottom_gap bs bbox
  let bs :=
    match bottom with
    | some b => if probably_footer (bs.drop b) then bs.take b else bs
    | none => bs
  let bs :=
    match top with
    | some t => if probably_header (bs.take t) then bs.drop t else bs
    | none => bs
  let bs := sort_x bs
  let (left, right) := left_right_gap bs bbox
  let bs :=
    match right with
    | some r => if probably_header (bs.drop r) then bs.take r else bs
    | none => bs
  let bs :=
    match left with
    | some l => if probably_header (bs.take l) then bs.drop l else bs
    | none => bs
  bs

/-- `node::build`: the tree-builder entry point with the
`without_header_and_footer` option (`true` runs the §4.3 trimmer,
`false` bypasses it). -/
def build (spans : List TextSpan) (bbox : Rect)
    (strokes : List (ℚ × ℚ × ℚ × ℚ)) (without_header_and_footer : Bool) : Node :=
  if spans.length = 0 then Node.singleton []
  else
    let boxes := spans.enum.map (fun it => (it.2.rect, it.1))
    let boxes :=
      if without_header_and_footer then exclude_header_and_footer boxes bbox spans
      else boxes
    let li := analyze_lines strokes
    split spans li (boxes.length + 1) boxes

/-! ## `text.rs` — the word assembler -/

/-- `flow::Char` (recorded per glyph of a word). -/
structure CharRec where
  offset : Nat
  pos : ℚ
  width : ℚ
deriving DecidableEq, Repr

/-- `util::Rect`, the output rect `{x, y, w, h}`. -/
structure RectOut where
  x : ℚ
  y : ℚ
  w : ℚ
  h : ℚ
deriving DecidableEq, Repr

/-- `flow::Word` (text kept as a `List Char`; the source's byte indices into
the output buffer become positions in this list). -/
structure Word where
  text : List Char
  rect : RectOut
  chars : List CharRec
deriving DecidableEq, Repr

/-- `text::WordBuilder`.  The source initializes `y_min`/`y_max` to
`±f32::INFINITY`; here `none` stands for that uninitialized state and
`update_bounds` treats it as the identity of `min`/`max`, exactly as the
infinities behave. -/
structure WordBuilder where
  word_start_idx : Nat
  start_pos : ℚ
  end_pos : ℚ
  y_min : Option ℚ
  y_max : Option ℚ
  chars : List CharRec
  char_count : Nat
  started : Bool
deriving DecidableEq, Repr

/-- `WordBuilder::new`. -/
def WordBuilder.new (word_start_idx : Nat) : WordBuilder :=
  ⟨word_start_idx, 0, 0, none, none, [], 0, false⟩

def WordBuilder.start_new (w : WordBuilder) (word_start_idx : Nat)
    (start_pos : ℚ) : WordBuilder :=
  { w with word_start_idx := word_start_idx, start_pos := start_pos, started := true }

def WordBuilder.add_char (w : WordBuilder) (offset : Nat) (start stop : ℚ) :
    WordBuilder :=
  { w with
    chars := w.chars ++ [⟨offset, start, stop - start⟩]
    end_pos := stop
    char_count := w.char_count + 1 }

def WordBuilder.update_bounds (w : WordBuilder) (min_y max_y : ℚ) : WordBuilder :=
  if !w.started then
    { w with y_min := some min_y, y_max := some max_y, started := true }
  else
    { w with
      y_min := some (min (w.y_min.getD min_y) min_y)
      y_max := some (max (w.y_max.getD max_y) max_y) }

def WordBuilder.is_empty (w : WordBuilder) : Bool := w.chars.isEmpty

/-- `WordBuilder::build`: the word's text is the suffix of the output buffer
from `word_start_idx`. -/
def WordBuilder.build (w : WordBuilder) (out : List Char) (end_pos : ℚ) : Word :=
  ⟨out.drop w.word_start_idx,
    ⟨w.start_pos, w.y_min.getD 0, end_pos - w.start_pos,
      w.y_max.getD 0 - w.y_min.getD 0⟩,
    w.chars⟩

/-- One glyph as consumed by `concat_text`'s inner loop: its extracted text,
em-space left edge (`pos + x_off`), device-space edges, and the owning
span's vertical extent. -/
structure GlyphData where
  text : List Char
  em_left : ℚ
  char_start : ℚ
  char_stop : ℚ
  rect_min_y : ℚ
  rect_max_y : ℚ
deriving DecidableEq, Repr

/-- Flatten the spans into the glyph stream walked by `concat_text`. -/
def glyph_stream (items : List TextSpan) : List GlyphData :=
  items.flatMap (fun s =>
    let x_off := s.transform.x_off
    s.chars.map (fun c =>
      ⟨c.text.data, c.pos + x_off,
        s.transform.apply_x (c.pos + x_off),
        s.transform.apply_x (c.pos + x_off + c.width),
        s.rect.min_y, s.rect.max_y⟩))

/-- State of `concat_text`'s loop. -/
structure ConcatSt where
  out : List Char
  words : List Word
  cur : WordBuilder
  trailing_space : Bool
deriving DecidableEq, Repr

/-- One iteration of `concat_text`'s glyph loop, given the normalization
function `nfkc` (the source applies Unicode NFKC via `text.nfkc()`; the
embedding abstracts it as a parameter) and the word-gap threshold. -/
def concat_step (nfkc : List Char → List Char) (word_gap : ℚ)
    (st : ConcatSt) (g : GlyphData) : ConcatSt :=
  let is_whitespace := g.text.all rust_is_whitespace
  let st :=
    if st.trailing_space && !is_whitespace then
      -- start new word after space
      let cur := (st.cur.start_new st.out.length g.char_start).add_char 0
        g.char_start g.char_stop
      { st with cur := cur, out := st.out ++ nfkc g.text }
    else if !st.trailing_space then
      if is_whitespace then
        -- end word at space
        let w := st.cur.build st.out g.char_stop
        { st with
          words := st.words ++ [w]
          cur := WordBuilder.new st.out.length
          out := st.out ++ [' '] }
      else if g.em_left > st.cur.end_pos + word_gap then
        -- end word at large gap
        let w := st.cur.build st.out g.char_stop
        let cur := ((WordBuilder.new st.out.length).start_new st.out.length
          g.char_start).add_char 0 g.char_start g.char_stop
        { st with
          words := st.words ++ [w]
          cur := cur
          out := st.out ++ nfkc g.text }
      else
        -- continue current word
        let cur := st.cur.add_char st.cur.char_count g.char_start g.char_stop
        { st with cur := cur, out := st.out ++ nfkc g.text }
    else st
  { st with
    trailing_space := is_whitespace
    cur := st.cur.update_bounds g.rect_min_y g.rect_max_y }

/-- `text::analyze_word_gap`: the adaptive space threshold. -/
def analyze_word_gap (items : List TextSpan) : ℚ :=
  let triples := items.flatMap (fun s =>
    let pos := s.transform.x_off
    (s.chars.filter (fun c =>
      match c.text.data with
      | [] => false -- panic path (`chars().next().unwrap()` past the text)
      | ch :: _ => !rust_is_whitespace ch)).map
      (fun c => (c.pos + pos, c.pos + pos + c.width, s.font_size)))
  let gap_vals := ((triples.zip triples.tail).filter
    (fun ab => ab.2.1 > ab.1.1)).map
    (fun ab => min (max (ab.2.1 - ab.1.2.1) (1/100))
      ((1/4) * (ab.1.2.2 + ab.2.2.2)))
  let avg_font_size := (avg (items.map (·.font_size))).getD 0
  -- panic path: `avg(..).unwrap()` on an empty span list
  min ((1/2) * avg_font_size) (2 * ((avg gap_vals).getD 0))

/-- `text::concat_text`: assemble the spans' glyphs into words, appending
their normalized text to the output buffer `out`. -/
def concat_text (nfkc : List Char → List Char) (out : List Char)
    (items : List TextSpan) : ConcatSt :=
  let word_gap := analyze_word_gap items
  let trailing := (out.getLast?.map rust_is_whitespace).getD true
  let st0 : ConcatSt := ⟨out, [], WordBuilder.new out.length, trailing⟩
  let st := (glyph_stream items).foldl (concat_step nfkc word_gap) st0
  if !st.cur.is_empty then
    { st with words := st.words ++ [st.cur.build st.out st.cur.end_pos] }
  else st

/-! ## `flow.rs` — the flow emitter -/

/-- `util::CellContent`. -/
structure CellContent where
  text : List Char
  rect : RectOut
deriving DecidableEq, Repr

/-- `flow::Line`. -/
structure LineOut where
  words : List Word
deriving DecidableEq, Repr

/-- `flow::RunType`. -/
inductive RunType where
  | ParagraphContinuation
  | Paragraph
  | Header
  | Cell
deriving DecidableEq, Repr

/-- `flow::Run`. -/
structure Run where
  lines : List LineOut
  kind : RunType
deriving DecidableEq, Repr

/-- `flow::Flow`. -/
structure Flow where
  lines : List LineOut
  runs : List Run
deriving DecidableEq, Repr

/-- `Flow::new`. -/
def Flow.new : Flow := ⟨[], []⟩

/-- `Flow::add_line`: push a one-line run when `words` is nonempty. -/
def Flow.add_line (f : Flow) (words : List Word) (kind : RunType) : Flow :=
  if words.length > 0 then
    { f with runs := f.runs ++ [⟨[⟨words⟩], kind⟩] }
  else f

/-- `Flow::add_table`: the source's body is empty — the table is discarded
and the flow is returned unchanged. -/
def Flow.add_table (f : Flow) (_table : Table CellContent) : Flow := f

/-- Union of a nonempty list of rects (`reduce(union_rect)`). -/
def union_rects (rs : List Rect) : Option Rect :=
  rs.foldl (fun acc r =>
    match acc with
    | none => some r
    | some a => some (a.union_rect r)) none

/-- The cell-content mapping of `flow::build`'s `Node::Table` arm: every
non-empty cell becomes a `CellContent` carrying the concatenated text of the
cell's spans and their union bbox. -/
def table_cell_contents (nfkc : List Char → List Char) (spans : List TextSpan)
    (table : Table (List Nat)) : Table CellContent :=
  table.flat_map_cells (fun indices =>
    if indices.length = 0 then none
    else
      let line_spans := indices.filterMap (fun i => spans.get? i)
      match union_rects (line_spans.map (·.rect)) with
      | none => none -- panic path (`reduce().unwrap()`: no valid index)
      | some bbox =>
        let text := (concat_text nfkc [] line_spans).out
        some ⟨text, ⟨bbox.min_x, bbox.min_y, bbox.width, bbox.height⟩⟩)

/-- State of the paragraph-emission loop of `flow::build`. -/
structure ParaSt where
  flow : Flow
  para_start : Nat
  line_start : Nat
  text : List Char
  para_bbox : Rect
  flow_lines : List LineOut
deriving Repr

/-- One iteration of the paragraph loop (`for &(line_bbox, end) in lines`). -/
def para_step (nfkc : List Char → List Char) (spans : List TextSpan)
    (indices : List Nat) (left_margin : ℚ) (indent : Bool) (kind : RunType)
    (st : ParaSt) (l : Rect × Nat) : ParaSt :=
  let (line_bbox, stop) := l
  let st :=
    if st.line_start ≠ 0 then
      if (decide (line_bbox.min_x ≥ left_margin)) == indent then
        { st with
          flow := { st.flow with runs := st.flow.runs ++ [⟨st.flow_lines, kind⟩] }
          flow_lines := []
          para_start := st.line_start }
      else { st with text := st.text ++ ['\n'] }
    else st
  let st :=
    if stop > st.line_start then
      let seg := (indices.drop st.line_start).take (stop - st.line_start)
      let res := concat_text nfkc st.text (seg.filterMap (fun i => spans.get? i))
      let st := { st with text := res.out }
      if res.words.length > 0 then
        { st with flow_lines := st.flow_lines ++ [⟨res.words⟩] }
      else st
    else st
  let st :=
    if st.para_start = st.line_start then { st with para_bbox := line_bbox }
    else { st with para_bbox := st.para_bbox.union_rect line_bbox }
  { st with line_start := stop }

mutual

/-- `flow::build`: walk the tree and emit the flow.  `x_anchor` is the
running left anchor used by paragraph-indent detection. -/
def flow_build (nfkc : List Char → List Char) (spans : List TextSpan) :
    Flow → Node → ℚ → Flow
  | flow, Node.Final indices, _ =>
    if indices.length > 0 then
      let node_spans := indices.filterMap (fun i => spans.get? i)
      match union_rects (node_spans.map (·.rect)) with
      | none => flow -- panic path (`reduce().unwrap()`: no valid index)
      | some _bbox =>
        let cl := classify node_spans
        let res := concat_text nfkc [] node_spans
        let t := if cl = Class.Header then RunType.Header else RunType.Paragraph
        flow.add_line res.words t
    else flow
  | flow, Node.Grid x _y cells tag, x_anchor =>
    match tag with
    | NodeTag.Singleton | NodeTag.Line =>
      let indices := Node.indices (Node.Grid x _y cells tag)
      let line_spans := indices.filterMap (fun i => spans.get? i)
      match union_rects (line_spans.map (·.rect)) with
      | none => flow -- panic path
      | some _bbox =>
        let res := concat_text nfkc [] line_spans
        let cl := classify line_spans
        let t := if cl = Class.Header then RunType.Header else RunType.Paragraph
        flow.add_line res.words t
    | NodeTag.Paragraph =>
      -- the source asserts `x.len() == 0` here
      let (lines_acc, indices) := cells.foldl
        (fun acc c =>
          let (ls, idxs) := acc
          let start := idxs.length
          let idxs2 := idxs ++ Node.indices c
          if idxs2.length > start then
            let cell_spans := (idxs2.drop start).filterMap (fun i => spans.get? i)
            match union_rects (cell_spans.map (·.rect)) with
            | none => (ls, idxs2) -- panic path
            | some bb => (ls ++ [(bb, idxs2.length)], idxs2)
          else (ls, idxs2))
        (([] : List (Rect × Nat)), ([] : List Nat))
      let para_spans := indices.filterMap (fun i => spans.get? i)
      let cl := classify para_spans
      let bbox := (union_rects (lines_acc.map (·.1))).getD ⟨0, 0, 0, 0⟩
      -- panic path when no line has a bbox
      let line_height := (avg (para_spans.map (fun s => s.rect.height))).getD 0
      -- panic path on an empty paragraph
      let left_margin := bbox.min_x + (1/2) * line_height
      let right := lines_acc.countP (fun l => l.1.min_x ≥ left_margin)
      let left := lines_acc.length - right
      let indent := decide (left > right)
      let kind := if cl = Class.Header then RunType.Header else RunType.Paragraph
      let st := lines_acc.foldl
        (para_step nfkc spans indices left_margin indent kind)
        ⟨flow, 0, 0, [], ⟨0, 0, 0, 0⟩, []⟩
      { st.flow with runs := st.flow.runs ++ [⟨st.flow_lines, kind⟩] }
    | NodeTag.Complex =>
      flow_build_cells nfkc spans (x_anchor :: x) flow 0 cells
  | flow, Node.TableNode table, _ =>
    match union_rects (table.values.flatMap (fun v =>
        (v.value.filterMap (fun i => spans.get? i)).map (·.rect))) with
    | some _bbox =>
      let mapped := table_cell_contents nfkc spans table
      flow.add_table mapped
    | none => flow

/-- The `cells.iter().zip(x_anchors)` loop of the `Complex` arm: `anchors`
is `once(x_anchor).chain(x)` and `.cycle()` becomes the index `i` taken
modulo its length. -/
def flow_build_cells (nfkc : List Char → List Char) (spans : List TextSpan)
    (anchors : List ℚ) : Flow → Nat → List Node → Flow
  | flow, _, [] => flow
  | flow, i, n :: rest =>
    flow_build_cells nfkc spans anchors
      (flow_build nfkc spans flow n (anchors.getD (i % anchors.length) 0))
      (i + 1) rest

end

/-! ## Derived checkers and spec-side definitions used by the theorems -/

/-- Strict ascent of a coordinate list, checked pairwise. -/
def strict_asc (l : List ℚ) : Bool :=
  (l.zip l.tail).all (fun ab => ab.1 < ab.2)

mutual

/-- The §8.2 grid shape invariant, checked over the whole tree: every `Grid`
has `(x+1)·(y+1)` cells and strictly ascending `x_splits`. -/
def grid_shape_ok : Node → Bool
  | Node.Final _ => true
  | Node.TableNode _ => true
  | Node.Grid x y cells _ =>
    (cells.length == (x.length + 1) * (y.length + 1)) && strict_asc x &&
      grid_shape_ok_list cells

def grid_shape_ok_list : List Node → Bool
  | [] => true
  | n :: rest => grid_shape_ok n && grid_shape_ok_list rest

end

/-- The `y_splits` of a `Grid` node (and `[]` for the other variants). -/
def node_grid_y : Node → List ℚ
  | Node.Grid _ y _ _ => y
  | _ => []

/-- A character list free of (Rust) whitespace. -/
def ws_free (l : List Char) : Bool := l.all (fun ch => !rust_is_whitespace ch)

/-- Decidability of rect normalization (used by concrete witnesses). -/
instance (r : Rect) : Decidable r.Normalized :=
  inferInstanceAs (Decidable (r.ox ≤ r.lx ∧ r.oy ≤ r.ly))

/-- The loop invariant of `concat_text` under glyph purity: finished words
are whitespace-free, the current word start is inside the buffer, the
suffix from the current word start is whitespace-free while not trailing a
space, and after a space the current builder is empty. -/
def ConcatInv (st : ConcatSt) : Prop :=
  (∀ w ∈ st.words, ws_free w.text = true)
  ∧ st.cur.word_start_idx ≤ st.out.length
  ∧ (st.trailing_space = false →
      ws_free (st.out.drop st.cur.word_start_idx) = true)
  ∧ (st.trailing_space = true → st.cur.chars = [])

/-- The runs' indices of an analyzed line, concatenated. -/
def line_run_indices (l : LineRec) : List Nat := l.2.2.flatMap (·.2)

/-- All indices stored in a table, in cell order (this is what
`Node::indices` reads off a `Table` node). -/
def table_indices (t : Table (List Nat)) : List Nat :=
  t.values.flatMap (·.value)

/-- Spec formula of §4.5 step 1 as the claim states it: for every pair of
**consecutive non-whitespace glyphs in input order** (a glyph counts as
whitespace when the first character of its extracted text is whitespace,
which is what the code tests), the gap `right.left_edge − left.right_edge`
clamped into `[0.01, 0.25·(left.font_size + right.font_size)]`; the space
threshold is `min(0.5·avg_font_size, 2·mean_clamped_gap)`, or `0` when no
gap exists.  (Stated from the spec sentence, for comparison with
`analyze_word_gap`; it omits the code's extra `right.left_edge >
left.left_edge` filter.) -/
def spec_space_threshold (items : List TextSpan) : ℚ :=
  let glyphs := items.flatMap (fun s =>
    let off := s.transform.x_off
    (s.chars.filter (fun c =>
      match c.text.data with
      | [] => false
      | ch :: _ => !rust_is_whitespace ch)).map
      (fun c => (c.pos + off, c.pos + off + c.width, s.font_size)))
  let clamped := (glyphs.zip glyphs.tail).map
    (fun ab => min ((1/4) * (ab.1.2.2 + ab.2.2.2)) (max (1/100) (ab.2.1 - ab.1.2.1)))
  match avg clamped with
  | none => 0
  | some m => min ((1/2) * ((avg (items.map (·.font_size))).getD 0)) (2 * m)

/-- The amended spec formula: identical to `spec_space_threshold` except
that, as the code does, only pairs with `right.left_edge > left.left_edge`
contribute a gap. -/
def spec_space_threshold_filtered (items : List TextSpan) : ℚ :=
  let glyphs := items.flatMap (fun s =>
    let off := s.transform.x_off
    (s.chars.filter (fun c =>
      match c.text.data with
      | [] => false
      | ch :: _ => !rust_is_whitespace ch)).map
      (fun c => (c.pos + off, c.pos + off + c.width, s.font_size)))
  let clamped := ((glyphs.zip glyphs.tail).filter (fun ab => ab.2.1 > ab.1.1)).map
    (fun ab => min ((1/4) * (ab.1.2.2 + ab.2.2.2)) (max (1/100) (ab.2.1 - ab.1.2.1)))
  match avg clamped with
  | none => 0
  | some m => min ((1/2) * ((avg (items.map (·.font_size))).getD 0)) (2 * m)

/-! ## Concrete inputs for counterexamples and witnesses -/

/-- A bare span carrying only a rect and a font size, as the tree builder
consumes them. -/
def mk_span (r : Rect) (fs : ℚ) : TextSpan := ⟨r, fs, none, "", [], Transform2F.id⟩

/-- Five spans whose table section assigns overlapping column ranges to the
two runs of its second line: the second `set_cell` covers the first one's
columns and drops index 1. -/
def c3_rects : List Rect :=
  [⟨0, 0, 1/5, 1⟩, ⟨0, 2, 1, 3⟩, ⟨5, 2, 6, 3⟩, ⟨59/10, 4, 6, 5⟩, ⟨3/4, 6, 26/5, 7⟩]

def c3_spans : List TextSpan := c3_rects.map (mk_span · 10)

def c3_boxes : List BoxN := c3_rects.enum.map (fun it => (it.2, it.1))

/-- Thirteen spans forming four ruled-free table lines with two wide x-gaps
and three wide y-gaps, so that `build` routes the whole page into the table
detector; the table assignment then drops span 4 exactly as in `c3`. -/
def c1_rects : List Rect :=
  [⟨-20, 0, -19, 1⟩, ⟨0, 0, 1/5, 1⟩, ⟨20, 0, 21, 1⟩,
   ⟨-20, 12, -19, 13⟩, ⟨0, 12, 1, 13⟩, ⟨9, 12, 10, 13⟩, ⟨20, 12, 21, 13⟩,
   ⟨-20, 24, -19, 25⟩, ⟨99/10, 24, 10, 25⟩, ⟨20, 24, 21, 25⟩,
   ⟨-20, 36, -19, 37⟩, ⟨3/4, 36, 93/10, 37⟩, ⟨20, 36, 21, 37⟩]

def c1_spans : List TextSpan := c1_rects.map (mk_span · 10)

def c1_bbox : Rect := ⟨-30, -10, 30, 50⟩

/-- Three y-sorted boxes on a 100-unit page whose first vertical gap starts
mid-page (y = 40) and whose last vertical gap starts in the bottom 20 %
(y = 85). -/
def c4_boxes : List BoxN :=
  [(⟨0, 0, 10, 40⟩, 0), (⟨0, 50, 10, 85⟩, 1), (⟨0, 90, 10, 95⟩, 2)]

def c4_bbox : Rect := ⟨0, 0, 100, 100⟩

/-- A single span whose one glyph extracts the mixed text `"a\nb"` (neither
all-whitespace nor whitespace-free); `"a\nb"` is NFKC-invariant, so the
identity stands in for the normalization on this input. -/
def c7_span : TextSpan := ⟨⟨0, 0, 1, 1⟩, 10, none, "a\nb", [⟨"a\nb", 0, 1⟩], Transform2F.id⟩

/-- A single span with two non-whitespace glyphs laid out right-to-left
(the second glyph's left edge is left of the first's), so the code's
`right.left_edge > left.left_edge` filter discards their pair. -/
def c6_span : TextSpan := ⟨⟨0, 0, 1, 1⟩, 10, none, "ab",
  [⟨"a", 10, 1⟩, ⟨"b", 0, 1⟩], Transform2F.id⟩

/-- Nine spans forming three overlapping-in-y text lines (a tall first box
overlaps the following lines), whose vertical wrapping grid in `split2` gets
the non-ascending `y_splits` `[15/2, 25/4]`. -/
def c8_rects : List Rect :=
  [⟨0, 0, 1, 10⟩, ⟨30, 2, 31, 3⟩, ⟨60, 2, 61, 3⟩,
   ⟨0, 5, 1, 6⟩, ⟨30, 5, 31, 6⟩, ⟨60, 5, 61, 6⟩,
   ⟨0, 13/2, 1, 7⟩, ⟨30, 13/2, 31, 7⟩, ⟨60, 13/2, 61, 7⟩]

def c8_spans : List TextSpan := c8_rects.map (mk_span · 100)

def c8_boxes : List BoxN := c8_rects.enum.map (fun it => (it.2, it.1))

/-- A span with one glyph of text, for exercising the flow emitter. -/
def c2_span : TextSpan := ⟨⟨0, 0, 1, 1⟩, 10, none, "x", [⟨"x", 0, 1⟩], Transform2F.id⟩

/-- A one-cell table holding span index 0. -/
def c2_table : Table (List Nat) := (Table.empty (List Nat) 1 1).set_cell [0] 0 0 1 1

/-- A bold-font span (for the classifier witnesses). -/
def bold_span : TextSpan :=
  ⟨⟨0, 0, 1, 1⟩, 18, some ⟨"Arial-Bold", 7⟩, "Title", [], Transform2F.id⟩

/-- Three y-sorted boxes whose first vertical gap (y = 5) lies in the top
20 % of the 100-unit page and whose last gap (y = 81) lies in the bottom
20 %. -/
def c4w_boxes : List BoxN :=
  [(⟨0, 0, 10, 5⟩, 0), (⟨0, 10, 10, 81⟩, 1), (⟨0, 95, 10, 100⟩, 2)]

/-- A span of two plain non-whitespace glyphs (for the word-assembler
witness). -/
def c7w_span : TextSpan := ⟨⟨0, 0, 1, 1⟩, 10, none, "ok",
  [⟨"o", 0, 1⟩, ⟨"k", 1, 1⟩], Transform2F.id⟩

/-! # Supporting lemmas -/

theorem indices_list_eq_flatMap (cells : List Node) :
    Node.indices_list cells = cells.flatMap Node.indices := by
  induction cells with
  | nil => rfl
  | cons n rest ih => simp [Node.indices_list, ih]

theorem sort_x_perm (l : List BoxN) : List.Perm (sort_x l) l :=
  List.perm_insertionSort _ l

theorem sort_y_perm (l : List BoxN) : List.Perm (sort_y l) l :=
  List.perm_insertionSort _ l

theorem sort_x_map_snd (l : List BoxN) :
    (((sort_x l).map Prod.snd : List Nat) : Multiset Nat) = (l.map Prod.snd : List Nat) :=
  Multiset.coe_eq_coe.mpr ((sort_x_perm l).map _)

theorem sort_y_map_snd (l : List BoxN) :
    (((sort_y l).map Prod.snd : List Nat) : Multiset Nat) = (l.map Prod.snd : List Nat) :=
  Multiset.coe_eq_coe.mpr ((sort_y_perm l).map _)

theorem split_by_flatten (f : Rect → ℚ) (ps : List ℚ) :
    ∀ data : List BoxN, (split_by f data ps).flatten = data := by
  induction ps with
  | nil => intro data; simp [split_by]
  | cons p ps ih =>
    intro data
    simp only [split_by, List.flatten_cons, ih, List.take_append_drop]

theorem split_by_length (f : Rect → ℚ) (ps : List ℚ) (data : List BoxN) :
    (split_by f data ps).length = ps.length + 1 := by
  induction ps generalizing data with
  | nil => rfl
  | cons p ps ih => simp [split_by, ih]

theorem split_by_mem_subset (f : Rect → ℚ) (ps : List ℚ) (data piece : List BoxN)
    (hp : piece ∈ split_by f data ps) : ∀ b ∈ piece, b ∈ data := by
  intro b hb
  have h := split_by_flatten f ps data
  rw [← h]
  exact List.mem_flatten.mpr ⟨piece, hp, hb⟩

theorem flatMap_coe_le {α : Type} (f g : α → List Nat) (l : List α)
    (h : ∀ a ∈ l, ((f a : List Nat) : Multiset Nat) ≤ (g a : List Nat)) :
    ((l.flatMap f : List Nat) : Multiset Nat) ≤ (l.flatMap g : List Nat) := by
  induction l with
  | nil => simp
  | cons a rest ih =>
    simp only [List.flatMap_cons, ← Multiset.coe_add]
    exact add_le_add (h a (List.mem_cons_self a rest))
      (ih (fun b hb => h b (List.mem_cons_of_mem a hb)))

theorem mem_flatMap_coe_le {α : Type} (f : α → List Nat) (l : List α) (a : α)
    (ha : a ∈ l) : ((f a : List Nat) : Multiset Nat) ≤ (l.flatMap f : List Nat) := by
  induction l with
  | nil => cases ha
  | cons b rest ih =>
    simp only [List.flatMap_cons, ← Multiset.coe_add]
    rcases List.mem_cons.mp ha with h | h
    · subst h; exact le_add_right le_rfl
    · exact le_add_left (ih h)

theorem build_line_go_nil (x y : SpanI) (items : List Nat)
    (line : List (SpanI × List Nat)) :
    build_line_go x y items line [] = (y, line ++ [(x, items)]) := rfl

theorem build_line_go_cons (x y : SpanI) (items : List Nat)
    (line : List (SpanI × List Nat)) (b : BoxN) (rest : List BoxN) :
    build_line_go x y items line (b :: rest) =
      (match x.union (SpanI.horiz b.1) with
       | some u =>
         build_line_go u ((y.union (SpanI.vert b.1)).getD (SpanI.vert b.1))
           (items ++ [b.2]) line rest
       | none =>
         build_line_go (SpanI.horiz b.1)
           ((y.union (SpanI.vert b.1)).getD (SpanI.vert b.1)) [b.2]
           (line ++ [(x, items)]) rest) := rfl

theorem build_line_go_indices (rest : List BoxN) :
    ∀ (x y : SpanI) (items : List Nat) (line : List (SpanI × List Nat)),
    (build_line_go x y items line rest).2.flatMap (fun r => r.2)
      = line.flatMap (fun r => r.2) ++ items ++ rest.map Prod.snd := by
  induction rest with
  | nil =>
    intro x y items line
    rw [build_line_go_nil]
    simp
  | cons b rest ih =>
    intro x y items line
    rw [build_line_go_cons]
    rcases hb : x.union (SpanI.horiz b.1) with _ | u
    · simp only [ih, List.flatMap_append, List.flatMap_cons, List.flatMap_nil,
        List.map_cons, List.append_nil]
      simp
    · simp only [ih, List.map_cons]
      simp [List.append_assoc]

theorem build_line_indices (spans : List TextSpan) (bs : List BoxN) :
    line_run_indices (build_line spans bs) = bs.map Prod.snd := by
  cases bs with
  | nil => rfl
  | cons b0 rest =>
    show (build_line_go _ _ _ _ rest).2.flatMap (fun r => r.2) = _
    rw [build_line_go_indices]
    simp

theorem group_lines_go_nil (spans : List TextSpan) (y : SpanI) (cur : List BoxN) :
    group_lines_go spans y cur [] = [build_line spans (sort_x cur)] := rfl

theorem group_lines_go_cons (spans : List TextSpan) (y : SpanI) (cur : List BoxN)
    (b : BoxN) (rest : List BoxN) :
    group_lines_go spans y cur (b :: rest) =
      (match y.intersect (SpanI.vert b.1) with
       | some overlap => group_lines_go spans overlap (cur ++ [b]) rest
       | none =>
         build_line spans (sort_x cur) ::
           group_lines_go spans (SpanI.vert b.1) [b] rest) := rfl

theorem group_lines_go_indices (spans : List TextSpan) (rest : List BoxN) :
    ∀ (y : SpanI) (cur : List BoxN),
    (((group_lines_go spans y cur rest).flatMap line_run_indices : List Nat) : Multiset Nat)
      = ((cur ++ rest).map Prod.snd : List Nat) := by
  induction rest with
  | nil =>
    intro y cur
    rw [group_lines_go_nil]
    simp only [List.flatMap_cons, List.flatMap_nil, List.append_nil,
      build_line_indices]
    rw [sort_x_map_snd]
  | cons b rest ih =>
    intro y cur
    rw [group_lines_go_cons]
    rcases h : y.intersect (SpanI.vert b.1) with _ | ov
    · simp only [List.flatMap_cons, build_line_indices]
      rw [← Multiset.coe_add, ih, sort_x_map_snd, Multiset.coe_add]
      refine congrArg (fun l => ((l : List Nat) : Multiset Nat)) ?_
      simp
    · rw [ih]
      refine congrArg (fun l => ((l : List Nat) : Multiset Nat)) ?_
      simp

theorem split2_lines_indices (spans : List TextSpan) (boxes : List BoxN) :
    (((split2_lines spans boxes).flatMap line_run_indices : List Nat) : Multiset Nat)
      = (boxes.map Prod.snd : List Nat) := by
  have hms : (((sort_y boxes).map Prod.snd : List Nat) : Multiset Nat)
      = (boxes.map Prod.snd : List Nat) := sort_y_map_snd boxes
  unfold split2_lines
  rcases h : sort_y boxes with _ | ⟨b0, rest⟩
  · rw [h] at hms
    rw [← hms]
    rfl
  · rw [h] at hms
    rw [group_lines_go_indices, ← hms]
    refine congrArg (fun l => ((l : List Nat) : Multiset Nat)) ?_
    simp

theorem table_indices_eq (t : Table (List Nat)) :
    table_indices t = t.cells.flatMap (fun p => p.2.value) := by
  unfold table_indices Table.values
  rw [List.flatMap_map]

theorem sublist_flatMap_coe_le {α : Type} (f : α → List Nat) {l1 l2 : List α}
    (h : l1.Sublist l2) :
    ((l1.flatMap f : List Nat) : Multiset Nat) ≤ (l2.flatMap f : List Nat) := by
  induction h with
  | slnil => simp
  | cons a _ ih =>
    simp only [List.flatMap_cons, ← Multiset.coe_add]
    exact le_add_left ih
  | cons₂ a _ ih =>
    simp only [List.flatMap_cons, ← Multiset.coe_add]
    exact add_le_add le_rfl ih

theorem set_cell_indices_le (t : Table (List Nat)) (v : List Nat) (r c rs cs : Nat) :
    ((table_indices (t.set_cell v r c rs cs) : List Nat) : Multiset Nat)
      ≤ ↑(table_indices t) + ↑v := by
  rw [table_indices_eq, table_indices_eq]
  unfold Table.set_cell
  simp only [List.flatMap_append, List.flatMap_cons, List.flatMap_nil,
    List.append_nil, ← Multiset.coe_add]
  exact add_le_add (sublist_flatMap_coe_le _ (List.filter_sublist _)) le_rfl

theorem modify_first_flatMap_le (parts : List Nat)
    (q : (Nat × Nat) × TableCell (List Nat) → Bool)
    (cells : List ((Nat × Nat) × TableCell (List Nat))) :
    (((modify_first q
        (fun p => (p.1, { p.2 with value := p.2.value ++ parts })) cells).flatMap
        (fun p => p.2.value) : List Nat) : Multiset Nat)
      ≤ ↑(cells.flatMap (fun p => p.2.value)) + ↑parts := by
  induction cells with
  | nil =>
    rw [show modify_first q
      (fun p => (p.1, { p.2 with value := p.2.value ++ parts }))
      ([] : List ((Nat × Nat) × TableCell (List Nat))) = [] from rfl]
    simp
  | cons x rest ih =>
    simp only [modify_first]
    rcases hq : q x with _ | _
    · simp only [hq, Bool.false_eq_true, if_false, List.flatMap_cons,
        ← Multiset.coe_add]
      calc (↑(x.2.value) : Multiset Nat)
            + ↑((modify_first q _ rest).flatMap fun p => p.2.value)
          ≤ ↑(x.2.value) + (↑(rest.flatMap fun p => p.2.value) + ↑parts) :=
            add_le_add le_rfl ih
        _ = ↑(x.2.value) + ↑(rest.flatMap fun p => p.2.value) + ↑parts := by
            rw [add_assoc]
    · simp only [hq, if_true, List.flatMap_cons, ← Multiset.coe_add]
      exact le_of_eq (add_right_comm _ _ _)

theorem update_cell_value_indices_le (t : Table (List Nat)) (r c : Nat)
    (parts : List Nat) :
    ((table_indices (t.update_cell_value r c (· ++ parts)) : List Nat) : Multiset Nat)
      ≤ ↑(table_indices t) + ↑parts := by
  rw [table_indices_eq, table_indices_eq]
  exact modify_first_flatMap_le parts _ t.cells

theorem assign_run_indices_le (cols : List SpanI) (comb : Bool) (row : Nat)
    (t : Table (List Nat)) (run : SpanI × List Nat) :
    ((table_indices (assign_run cols comb row t run) : List Nat) : Multiset Nat)
      ≤ ↑(table_indices t) + ↑run.2 := by
  unfold assign_run
  rcases h : intersecting_cols cols run.1 with _ | ⟨first_col, more⟩
  · exact le_add_right le_rfl
  · dsimp only
    rcases hg : (if comb then t.get_cell_value row first_col else none) with _ | v
    · exact set_cell_indices_le t run.2 row first_col 1
        (more.getLast?.getD first_col - first_col + 1)
    · exact update_cell_value_indices_le t row first_col run.2

theorem assign_runs_indices_le (cols : List SpanI) (comb : Bool) (row : Nat)
    (runs : List (SpanI × List Nat)) :
    ∀ t : Table (List Nat),
    ((table_indices (runs.foldl (assign_run cols comb row) t) : List Nat) : Multiset Nat)
      ≤ ↑(table_indices t) + ↑(runs.flatMap (fun r => r.2)) := by
  induction runs with
  | nil => intro t; simp
  | cons run rest ih =>
    intro t
    simp only [List.foldl_cons, List.flatMap_cons, ← Multiset.coe_add]
    calc ((table_indices (rest.foldl (assign_run cols comb row)
            (assign_run cols comb row t run)) : List Nat) : Multiset Nat)
        ≤ ↑(table_indices (assign_run cols comb row t run)) + ↑(rest.flatMap fun r => r.2) :=
          ih _
      _ ≤ (↑(table_indices t) + ↑run.2) + ↑(rest.flatMap fun r => r.2) :=
          add_le_add (assign_run_indices_le cols comb row t run) le_rfl
      _ = ↑(table_indices t) + (↑run.2 + ↑(rest.flatMap fun r => r.2)) := by
          rw [add_assoc]

theorem assign_step_indices_le (li : Lines) (d : ℚ) (cols : List SpanI)
    (st : AssignSt) (l : LineRec) :
    ((table_indices (assign_step li d cols st l).table : List Nat) : Multiset Nat)
      ≤ ↑(table_indices st.table) + ↑(line_run_indices l) :=
  assign_runs_indices_le cols _ _ l.2.2 st.table

theorem assign_fold_indices_le (li : Lines) (d : ℚ) (cols : List SpanI)
    (lines : List LineRec) :
    ∀ st : AssignSt,
    ((table_indices (lines.foldl (assign_step li d cols) st).table : List Nat) : Multiset Nat)
      ≤ ↑(table_indices st.table) + ↑(lines.flatMap line_run_indices) := by
  induction lines with
  | nil => intro st; simp
  | cons l rest ih =>
    intro st
    simp only [List.foldl_cons, List.flatMap_cons, ← Multiset.coe_add]
    calc ((table_indices (rest.foldl (assign_step li d cols)
            (assign_step li d cols st l)).table : List Nat) : Multiset Nat)
        ≤ ↑(table_indices (assign_step li d cols st l).table)
            + ↑(rest.flatMap line_run_indices) := ih _
      _ ≤ (↑(table_indices st.table) + ↑(line_run_indices l))
            + ↑(rest.flatMap line_run_indices) :=
          add_le_add (assign_step_indices_le li d cols st l) le_rfl
      _ = ↑(table_indices st.table)
            + (↑(line_run_indices l) + ↑(rest.flatMap line_run_indices)) := by
          rw [add_assoc]

theorem section_table_indices_le (spans : List TextSpan) (li : Lines)
    (lines : List LineRec) :
    ((Node.indices (section_table spans li lines).2 : List Nat) : Multiset Nat)
      ≤ ↑(lines.flatMap line_run_indices) := by
  have key : ∀ (d : ℚ) (cols : List SpanI) (rows colsn : Nat),
      ((table_indices ((lines.foldl (assign_step li d cols)
          ⟨0, none, Table.empty (List Nat) rows colsn⟩).table) : List Nat)
          : Multiset Nat)
        ≤ ↑(lines.flatMap line_run_indices) := by
    intro d cols rows colsn
    have h := assign_fold_indices_le li d cols lines
      ⟨0, none, Table.empty (List Nat) rows colsn⟩
    simpa [table_indices, Table.empty, Table.values] using h
  exact key _ _ _ _

theorem line_final_indices (l : LineRec) :
    Node.indices (line_final l).2 = line_run_indices l := rfl

theorem map_line_final_indices (ls : List LineRec) :
    (ls.map line_final).flatMap (fun p => Node.indices p.2)
      = ls.flatMap line_run_indices := by
  induction ls with
  | nil => rfl
  | cons l rest ih => simp only [List.map_cons, List.flatMap_cons, ih]; rfl

theorem flatMap_take_drop {α : Type} (f : α → List Nat) (ls : List α) (p k : Nat) :
    ls.flatMap f = (ls.take p).flatMap f
      ++ (((ls.drop p).take k).flatMap f ++ ((ls.drop p).drop k).flatMap f) := by
  conv_lhs => rw [← List.take_append_drop p ls]
  rw [List.flatMap_append]
  congr 1
  conv_lhs => rw [← List.take_append_drop k (ls.drop p)]
  rw [List.flatMap_append]

theorem vparts_go_indices_le (spans : List TextSpan) (li : Lines) :
    ∀ (fuel : Nat) (ls : List LineRec),
    (((vparts_go spans li fuel ls).flatMap (fun p => Node.indices p.2) : List Nat)
        : Multiset Nat)
      ≤ ↑(ls.flatMap line_run_indices) := by
  intro fuel
  induction fuel with
  | zero =>
    intro ls
    rw [show vparts_go spans li 0 ls = ls.map line_final from rfl,
      map_line_final_indices]
  | succ fuel ih =>
    intro ls
    rw [show vparts_go spans li (fuel + 1) ls =
      (match ls.findIdx? (fun l => l.1 == LineTag.Unknown || l.1 == LineTag.TableT) with
       | none => ls.map line_final
       | some p =>
         (ls.take p).map line_final
           ++ [section_table spans li ((ls.drop p).take
                (1 + (((ls.drop p).drop 1).findIdx?
                  (fun l => l.1 == LineTag.Text)).getD ((ls.drop p).length - 1)))]
           ++ vparts_go spans li fuel ((ls.drop p).drop
                (1 + (((ls.drop p).drop 1).findIdx?
                  (fun l => l.1 == LineTag.Text)).getD ((ls.drop p).length - 1)))) from rfl]
    rcases h : ls.findIdx?
        (fun l => l.1 == LineTag.Unknown || l.1 == LineTag.TableT) with _ | p
    · rw [h, map_line_final_indices]
    · rw [h]
      simp only [List.flatMap_append, map_line_final_indices, List.flatMap_cons,
        List.flatMap_nil, List.append_nil]
      rw [flatMap_take_drop line_run_indices ls p
        (1 + (((ls.drop p).drop 1).findIdx? (fun l => l.1 == LineTag.Text)).getD
          ((ls.drop p).length - 1))]
      simp only [← Multiset.coe_add]
      rw [add_assoc]
      exact add_le_add le_rfl
        (add_le_add (section_table_indices_le spans li _) (ih _))

theorem split2_indices_le (boxes : List BoxN) (spans : List TextSpan) (li : Lines) :
    ((Node.indices (split2 boxes spans li) : List Nat) : Multiset Nat)
      ≤ ↑(boxes.map Prod.snd) := by
  have hv : (((vparts_go spans li ((split2_lines spans boxes).length + 1)
        (split2_lines spans boxes)).flatMap (fun p => Node.indices p.2)
        : List Nat) : Multiset Nat)
      ≤ ↑(boxes.map Prod.snd) := by
    calc _ ≤ (((split2_lines spans boxes).flatMap line_run_indices : List Nat)
          : Multiset Nat) := vparts_go_indices_le spans li _ _
      _ = _ := split2_lines_indices spans boxes
  unfold split2
  set vparts := vparts_go spans li ((split2_lines spans boxes).length + 1)
    (split2_lines spans boxes) with hvp
  by_cases hl : vparts.length > 1
  · simp only [hl, if_true]
    show ((Node.indices_list (vparts.map (·.2)) : List Nat) : Multiset Nat) ≤ _
    rw [indices_list_eq_flatMap, List.flatMap_map]
    exact hv
  · simp only [hl, if_false]
    rcases hlast : vparts.getLast? with _ | pr
    · show ((([] : List Nat) : List Nat) : Multiset Nat) ≤ _
      simp
    · have hmem := List.mem_of_mem_getLast? hlast
      exact le_trans (mem_flatMap_coe_le (fun p => Node.indices p.2) vparts pr hmem) hv

theorem flatMap_map_snd (l : List (List BoxN)) :
    l.flatMap (fun r => r.map Prod.snd) = l.flatten.map Prod.snd := by
  induction l with
  | nil => rfl
  | cons r rest ih => simp [ih]

theorem overlapping_go_indices_le (avg_height : ℚ) :
    ∀ (fuel : Nat) (yc : ℚ) (bs : List BoxN),
    ((Node.indices_list (overlapping_lines_go avg_height fuel yc bs).1 : List Nat)
        : Multiset Nat)
      ≤ ↑(bs.map Prod.snd) := by
  intro fuel
  induction fuel with
  | zero =>
    intro yc bs
    show ((Node.indices_list [Node.singleton (sort_x bs)] : List Nat) : Multiset Nat) ≤ _
    show (((sort_x bs).map Prod.snd ++ [] : List Nat) : Multiset Nat) ≤ _
    rw [List.append_nil, sort_x_map_snd]
  | succ fuel ih =>
    intro yc bs
    rw [show overlapping_lines_go avg_height (fuel + 1) yc bs =
      (match bs.findIdx? (fun b => b.1.center_y > (1/2) * avg_height + yc) with
       | none => ([Node.singleton (sort_x bs)], [])
       | some i =>
         match ((sort_x (bs.take i)).map (·.1)).foldl (fun acc r =>
             match acc with
             | none => some r
             | some a => some (a.union_rect r)) none with
         | none => ([Node.Final []], [])
         | some bbox =>
           ((Node.singleton (sort_x (bs.take i))
               :: (overlapping_lines_go avg_height fuel
                 ((List.headD (bs.drop i) (⟨0, 0, 0, 0⟩, 0)).1.center_y) (bs.drop i)).1),
             (bbox.max_y :: (overlapping_lines_go avg_height fuel
                 ((List.headD (bs.drop i) (⟨0, 0, 0, 0⟩, 0)).1.center_y) (bs.drop i)).2))
       ) from rfl]
    rcases h : bs.findIdx? (fun b => b.1.center_y > (1/2) * avg_height + yc) with _ | i
    · rw [h]
      show ((Node.indices_list [Node.singleton (sort_x bs)] : List Nat) : Multiset Nat) ≤ _
      show (((sort_x bs).map Prod.snd ++ [] : List Nat) : Multiset Nat) ≤ _
      rw [List.append_nil, sort_x_map_snd]
    · rw [h]
      dsimp only
      rcases hu : ((sort_x (bs.take i)).map (·.1)).foldl (fun acc r =>
          match acc with
          | none => some r
          | some a => some (a.union_rect r)) none with _ | bbox
      · rw [hu]
        show ((Node.indices_list [Node.Final []] : List Nat) : Multiset Nat) ≤ _
        show ((([] : List Nat) ++ [] : List Nat) : Multiset Nat) ≤ _
        simp
    -- the closed segment plus the recursively processed remainder
      · rw [hu]
        show ((((sort_x (bs.take i)).map Prod.snd
            ++ Node.indices_list (overlapping_lines_go avg_height fuel _ (bs.drop i)).1
            : List Nat)) : Multiset Nat) ≤ _
        rw [← Multiset.coe_add, sort_x_map_snd]
        calc (((bs.take i).map Prod.snd : List Nat) : Multiset Nat)
              + ↑(Node.indices_list (overlapping_lines_go avg_height fuel _ (bs.drop i)).1)
            ≤ ↑((bs.take i).map Prod.snd) + ↑((bs.drop i).map Prod.snd) :=
              add_le_add le_rfl (ih _ _)
          _ = ↑(bs.map Prod.snd) := by
              rw [Multiset.coe_add, ← List.map_append, List.take_append_drop]

theorem overlapping_result_indices_le (lines : List Node) (ys : List ℚ) :
    ((Node.indices (overlapping_result lines ys) : List Nat) : Multiset Nat)
      ≤ ↑(Node.indices_list lines) := by
  rcases lines with _ | ⟨l0, lrest⟩
  · exact le_rfl
  · rcases lrest with _ | ⟨l1, lrest2⟩
    · show ((Node.indices l0 : List Nat) : Multiset Nat)
        ≤ ((Node.indices l0 ++ [] : List Nat) : Multiset Nat)
      simp
    · show ((Node.indices_list (l0 :: l1 :: lrest2) : List Nat) : Multiset Nat) ≤ _
      exact le_rfl

theorem overlapping_lines_indices_le (boxes : List BoxN) :
    ((Node.indices (overlapping_lines boxes) : List Nat) : Multiset Nat)
      ≤ ↑(boxes.map Prod.snd) := by
  have hms := sort_y_map_snd boxes
  unfold overlapping_lines
  generalize hbs : sort_y boxes = bs
  rw [hbs] at hms
  dsimp only
  rcases ha : avg (bs.map (fun b => b.1.height)) with _ | avg_height
  · rw [ha]
    exact Multiset.zero_le _
  · rw [ha]
    rcases bs with _ | ⟨b0, rest⟩
    · exact Multiset.zero_le _
    · rw [← hms]
      exact le_trans (overlapping_result_indices_le _ _)
        (overlapping_go_indices_le avg_height _ _ _)

theorem rows_map_split_le (spans : List TextSpan) (li : Lines) (fuel : Nat)
    (ih : ∀ boxes : List BoxN,
      ((Node.indices (split spans li fuel boxes) : List Nat) : Multiset Nat)
        ≤ ↑(boxes.map Prod.snd))
    (rows : List (List BoxN)) :
    (((rows.map (fun row => split spans li fuel row)).flatMap Node.indices
        : List Nat) : Multiset Nat)
      ≤ ↑(rows.flatten.map Prod.snd) := by
  rw [List.flatMap_map, ← flatMap_map_snd]
  exact flatMap_coe_le _ _ rows (fun row _ => ih row)

theorem rows_grid_split_le (spans : List TextSpan) (li : Lines) (fuel : Nat)
    (ih : ∀ boxes : List BoxN,
      ((Node.indices (split spans li fuel boxes) : List Nat) : Multiset Nat)
        ≤ ↑(boxes.map Prod.snd))
    (xg : List ℚ) (rows : List (List BoxN)) :
    (((rows.flatMap (fun row =>
        (split_by (fun r => r.min_x) (sort_x row) xg).map
          (fun cell => split spans li fuel (sort_y cell)))).flatMap Node.indices
        : List Nat) : Multiset Nat)
      ≤ ↑(rows.flatten.map Prod.snd) := by
  rw [List.flatMap_assoc, ← flatMap_map_snd]
  refine flatMap_coe_le _ _ rows (fun row _ => ?_)
  rw [List.flatMap_map]
  have h1 : (((split_by (fun r => r.min_x) (sort_x row) xg).flatMap
      (fun cell => Node.indices (split spans li fuel (sort_y cell))) : List Nat)
      : Multiset Nat)
      ≤ ↑((split_by (fun r => r.min_x) (sort_x row) xg).flatMap
          (fun cell => cell.map Prod.snd)) := by
    refine flatMap_coe_le _ _ _ (fun cell _ => ?_)
    calc ((Node.indices (split spans li fuel (sort_y cell)) : List Nat) : Multiset Nat)
        ≤ ↑((sort_y cell).map Prod.snd) := ih _
      _ = ↑(cell.map Prod.snd) := sort_y_map_snd cell
  refine le_trans h1 (le_of_eq ?_)
  rw [flatMap_map_snd, split_by_flatten, sort_x_map_snd]

set_option maxHeartbeats 1000000 in
theorem split_indices_le (spans : List TextSpan) (li : Lines) :
    ∀ (fuel : Nat) (boxes : List BoxN),
    ((Node.indices (split spans li fuel boxes) : List Nat) : Multiset Nat)
      ≤ ↑(boxes.map Prod.snd) := by
  intro fuel
  induction fuel with
  | zero => intro boxes; exact le_rfl
  | succ fuel ih =>
    intro boxes
    unfold split
    by_cases hlen : boxes.length < 2
    · simp only [hlen, if_true]
      exact le_rfl
    · simp only [hlen, if_false]
      have hperm4 : (((sort_y (sort_x (sort_y (sort_x boxes)))).map Prod.snd
          : List Nat) : Multiset Nat) = ↑(boxes.map Prod.snd) := by
        rw [sort_y_map_snd, sort_x_map_snd, sort_y_map_snd, sort_x_map_snd]
      have hperm3 : (((sort_x (sort_y (sort_x boxes))).map Prod.snd
          : List Nat) : Multiset Nat) = ↑(boxes.map Prod.snd) := by
        rw [sort_x_map_snd, sort_y_map_snd, sort_x_map_snd]
      have key : ∀ (mx my : Option (ℚ × ℚ)),
          ((Node.indices (match mx, my with
            | none, none => Node.singleton (sort_x (sort_y (sort_x boxes)))
            | mxg, myg =>
              (fun (tx ty : ℚ) =>
                (fun (xgs ygs : List ℚ) =>
                  if xgs.length = 0 ∧ ygs.length = 0 then
                    overlapping_lines (sort_x (sort_y (sort_x boxes)))
                  else if xgs.length > 1 ∧ ygs.length > 1 then
                    split2 (sort_x (sort_y (sort_x boxes))) spans li
                  else
                    (fun (cells : List Node) =>
                      Node.Grid xgs ygs cells
                        (if ygs.length = 0 then
                          if cells.all (fun n => n.tag ≤ NodeTag.Line) then NodeTag.Line
                          else NodeTag.Complex
                        else if xgs.length = 0 then
                          if cells.all (fun n => n.tag ≤ NodeTag.Line) then NodeTag.Paragraph
                          else NodeTag.Complex
                        else NodeTag.Complex))
                    (if xgs.length > 0 then
                      (split_by (fun r => r.min_y) (sort_y (sort_x (sort_y (sort_x boxes)))) ygs).flatMap
                        (fun row => (split_by (fun r => r.min_x) (sort_x row) xgs).map
                          (fun cell => split spans li fuel (sort_y cell)))
                    else
                      (split_by (fun r => r.min_y) (sort_y (sort_x (sort_y (sort_x boxes)))) ygs).map
                        (fun row => split spans li fuel row)))
                (gaps tx (sort_x (sort_y (sort_x boxes))) (fun r => (r.min_x, r.max_x)))
                (gaps ty (sort_y (sort_x boxes)) (fun r => (r.min_y, r.max_y))))
              (max ((match mxg, myg with
                  | some xg, some yg => max xg.1 yg.1
                  | some xg, none => xg.1
                  | none, some xg => xg.1
                  | none, none => 0) * (1/2)) 1)
              (max ((match mxg, myg with
                  | some xg, some yg => max xg.1 yg.1
                  | some xg, none => xg.1
                  | none, some xg => xg.1
                  | none, none => 0) * (1/2)) (1/10))
            : Node) : List Nat) : Multiset Nat) ≤ ↑(boxes.map Prod.snd) := by
        intro mx my
        have main : ∀ (tx ty : ℚ),
            ((Node.indices
              ((fun (xgs ygs : List ℚ) =>
                  if xgs.length = 0 ∧ ygs.length = 0 then
                    overlapping_lines (sort_x (sort_y (sort_x boxes)))
                  else if xgs.length > 1 ∧ ygs.length > 1 then
                    split2 (sort_x (sort_y (sort_x boxes))) spans li
                  else
                    (fun (cells : List Node) =>
                      Node.Grid xgs ygs cells
                        (if ygs.length = 0 then
                          if cells.all (fun n => n.tag ≤ NodeTag.Line) then NodeTag.Line
                          else NodeTag.Complex
                        else if xgs.length = 0 then
                          if cells.all (fun n => n.tag ≤ NodeTag.Line) then NodeTag.Paragraph
                          else NodeTag.Complex
                        else NodeTag.Complex))
                    (if xgs.length > 0 then
                      (split_by (fun r => r.min_y) (sort_y (sort_x (sort_y (sort_x boxes)))) ygs).flatMap
                        (fun row => (split_by (fun r => r.min_x) (sort_x row) xgs).map
                          (fun cell => split spans li fuel (sort_y cell)))
                    else
                      (split_by (fun r => r.min_y) (sort_y (sort_x (sort_y (sort_x boxes)))) ygs).map
                        (fun row => split spans li fuel row)))
                (gaps tx (sort_x (sort_y (sort_x boxes))) (fun r => (r.min_x, r.max_x)))
                (gaps ty (sort_y (sort_x boxes)) (fun r => (r.min_y, r.max_y)))
              : Node) : List Nat) : Multiset Nat) ≤ ↑(boxes.map Prod.snd) := by
          intro tx ty
          generalize (gaps tx (sort_x (sort_y (sort_x boxes))) (fun r => (r.min_x, r.max_x))) = xgs
          generalize (gaps ty (sort_y (sort_x boxes)) (fun r => (r.min_y, r.max_y))) = ygs
          dsimp only
          by_cases h00 : xgs.length = 0 ∧ ygs.length = 0
          · simp only [h00, if_true]
            exact le_trans (overlapping_lines_indices_le _) (le_of_eq hperm3)
          · simp only [h00, if_false]
            by_cases h11 : xgs.length > 1 ∧ ygs.length > 1
            · simp only [h11, if_true]
              exact le_trans (split2_indices_le _ spans li) (le_of_eq hperm3)
            · simp only [h11, if_false]
              by_cases hxg : xgs.length > 0
              · simp only [hxg, if_true]
                refine le_trans ?_ (le_of_eq hperm4)
                rw [show ∀ (cells : List Node) (t : NodeTag),
                    Node.indices (Node.Grid xgs ygs cells t) = Node.indices_list cells
                  from fun _ _ => rfl, indices_list_eq_flatMap]
                refine le_trans (rows_grid_split_le spans li fuel ih xgs _) (le_of_eq ?_)
                rw [split_by_flatten]
              · simp only [hxg, if_false]
                refine le_trans ?_ (le_of_eq hperm4)
                rw [show ∀ (cells : List Node) (t : NodeTag),
                    Node.indices (Node.Grid xgs ygs cells t) = Node.indices_list cells
                  from fun _ _ => rfl, indices_list_eq_flatMap]
                refine le_trans (rows_map_split_le spans li fuel ih _) (le_of_eq ?_)
                rw [split_by_flatten]
        rcases mx with _ | xg
        all_goals rcases my with _ | yg
        · show ((Node.indices (Node.singleton (sort_x (sort_y (sort_x boxes)))) : List Nat)
            : Multiset Nat) ≤ _
          exact le_of_eq hperm3
        all_goals exact main _ _
      exact key _ _


/-! # Claim theorems -/

/-- Claim C1 (amended): with `without_header_and_footer = false` (the
default) the header/footer trimmer is bypassed — `build` hands the full
enumerated box list straight to the recursive splitter — and every index in
the resulting tree is an input index appearing at most once.  (The original
claim's final clause, that *every* input index appears in the tree, fails:
the table detector's `set_cell` can drop indices; see the counterexample.) -/
theorem c1_trimmer_bypassed (spans : List TextSpan) (bbox : Rect)
    (strokes : List (ℚ × ℚ × ℚ × ℚ)) :
    build spans bbox strokes false
        = split spans (analyze_lines strokes) (spans.length + 1)
            (spans.enum.map (fun it => (it.2.rect, it.1)))
      ∧ ((Node.indices (build spans bbox strokes false) : List Nat) : Multiset Nat)
          ≤ ↑(List.range spans.length)
      ∧ (Node.indices (build spans bbox strokes false)).Nodup := by
  have hlen : (spans.enum.map (fun it => (it.2.rect, it.1))).length = spans.length := by
    rw [List.length_map, List.enum_length]
  have hsnd : (spans.enum.map (fun it => (it.2.rect, it.1))).map Prod.snd
      = List.range spans.length := by
    rw [List.map_map]
    exact List.enum_map_fst spans
  have h1 : build spans bbox strokes false
      = split spans (analyze_lines strokes) (spans.length + 1)
          (spans.enum.map (fun it => (it.2.rect, it.1))) := by
    unfold build
    by_cases h0 : spans.length = 0
    · have hnil : spans = [] := List.length_eq_zero.mp h0
      subst hnil
      rfl
    · simp only [h0, if_false, Bool.false_eq_true, hlen]
  refine ⟨h1, ?_, ?_⟩
  · rw [h1, ← hsnd]
    exact split_indices_le spans (analyze_lines strokes) _ _
  · have hle : ((Node.indices (build spans bbox strokes false) : List Nat)
        : Multiset Nat) ≤ ↑(List.range spans.length) := by
      rw [h1, ← hsnd]
      exact split_indices_le spans (analyze_lines strokes) _ _
    exact Multiset.coe_nodup.mp
      (Multiset.nodup_of_le hle (Multiset.coe_nodup.mpr (List.nodup_range _)))

/-- Claim C10: classifying an empty span collection returns `Mixed` — the
numeric and bold triangles stay `Unknown`, the uniform triangle gets its
trailing `true`, and only the default arm of the decision table matches. -/
theorem c10_classify_empty : classify [] = Class.Mixed := rfl

theorem count_eq_T_iff (tc : TriCount) : tc.count = Tri.T ↔ tc.fal = 0 ∧ tc.tru ≠ 0 := by
  rcases tc with ⟨tru, fal⟩
  rcases fal with _ | f <;> rcases tru with _ | t <;> simp [TriCount.count]

theorem classify_fold_inv (S : List TextSpan) :
    ∀ acc : ClassifyAcc,
    (S.foldl classify_step acc).numeric.tru + (S.foldl classify_step acc).numeric.fal
        = acc.numeric.tru + acc.numeric.fal + S.length
      ∧ ((S.foldl classify_step acc).first_font = none →
          (S.foldl classify_step acc).bold = acc.bold ∧ acc.first_font = none) := by
  induction S with
  | nil => intro acc; exact ⟨by simp, fun _ => ⟨rfl, by
      have : (List.foldl classify_step acc []).first_font = acc.first_font := rfl
      simp_all⟩⟩
  | cons s rest ih =>
    intro acc
    rw [List.foldl_cons]
    have hstep := ih (classify_step acc s)
    constructor
    · rw [hstep.1]
      have hnum : (classify_step acc s).numeric.tru + (classify_step acc s).numeric.fal
          = acc.numeric.tru + acc.numeric.fal + 1 := by
        unfold classify_step
        rcases s.font with _ | f
        · rcases hn : is_number s.text <;> simp [TriCount.add, hn] <;> omega
        · rcases hff : acc.first_font with _ | p <;>
            rcases hn : is_number s.text <;>
            simp [TriCount.add, hn, hff] <;> omega
      rw [hnum]
      simp [List.length_cons]
      omega
    · intro hnone
      have h2 := hstep.2 hnone
      have hsf : (classify_step acc s).first_font = none → s.font = none ∧ acc.first_font = none := by
        unfold classify_step
        rcases hf : s.font with _ | f
        · simp
        · rcases hff : acc.first_font with _ | p <;> simp [hff]
      rcases hsf h2.2 with ⟨hfn, hacc⟩
      refine ⟨?_, hacc⟩
      rw [h2.1]
      unfold classify_step
      rw [hfn]

/-- Claim C9: adding a bold-font span to a Header-classified collection
keeps the classification Header or Mixed, never Paragraph (and never
Number). -/
theorem c9_classifier_monotone (S : List TextSpan) (t : TextSpan) (f : Font)
    (hh : classify S = Class.Header) (hf : t.font = some f)
    (hb : contains_sub f.name "Bold" = true) :
    classify (S ++ [t]) = Class.Header ∨ classify (S ++ [t]) = Class.Mixed := by
  unfold classify at hh
  set a := S.foldl classify_step ⟨TriCount.new, TriCount.new, TriCount.new, none⟩ with ha
  -- extract the shape of the accumulator forced by the Header result
  have hbold : a.bold.count = Tri.T ∧ (a.uniform.add true).count = Tri.T
      ∧ a.numeric.count ≠ Tri.T := by
    rcases hn : a.numeric.count <;> rcases hbc : a.bold.count <;>
      rcases hu : (a.uniform.add true).count <;> simp_all
  have hbf : a.bold.fal = 0 ∧ a.bold.tru ≠ 0 := (count_eq_T_iff _).mp hbold.1
  have huf : a.uniform.fal = 0 := by
    have := (count_eq_T_iff _).mp hbold.2.1
    simpa [TriCount.add] using this.1
  have hnum_fal : a.numeric.fal ≠ 0 := by
    intro h0
    have hlen := (classify_fold_inv S ⟨TriCount.new, TriCount.new, TriCount.new, none⟩).1
    have hff := (classify_fold_inv S ⟨TriCount.new, TriCount.new, TriCount.new, none⟩).2
    rcases htru : a.numeric.tru with _ | k
    · -- no numeric samples at all: then no samples of any kind, so bold is new
      have hS : S.length = 0 := by
        rw [← ha] at hlen
        omega
      have : S = [] := List.length_eq_zero.mp hS
      subst this
      have : a.bold = TriCount.new := by rw [ha]; rfl
      exact hbf.2 (by rw [this]; rfl)
    · exact hbold.2.2 ((count_eq_T_iff _).mpr ⟨h0, by omega⟩)
  have hffont : ∃ p, a.first_font = some p := by
    rcases hffo : a.first_font with _ | p
    · have hff := (classify_fold_inv S ⟨TriCount.new, TriCount.new, TriCount.new, none⟩).2
      rw [← ha] at hff
      have := hff hffo
      exact absurd (by rw [this.1]; rfl) hbf.2
    · exact ⟨p, rfl⟩
  rcases hffont with ⟨p, hp⟩
  -- the accumulator after the appended span
  have hstep : (S ++ [t]).foldl classify_step
      ⟨TriCount.new, TriCount.new, TriCount.new, none⟩ = classify_step a t := by
    rw [List.foldl_append, ← ha, List.foldl_cons, List.foldl_nil]
  have hstep2 : classify_step a t =
      { a with
        numeric := a.numeric.add (is_number t.text)
        bold := a.bold.add true
        uniform := a.uniform.add (f.id == p) } := by
    unfold classify_step
    rw [hf]
    dsimp only
    rw [hp]
    dsimp only
    rw [hb]
  unfold classify
  rw [hstep, hstep2]
  have hbT : (a.bold.add true).count = Tri.T := by
    refine (count_eq_T_iff _).mpr ?_
    simp [TriCount.add, hbf.1]
  have hnT : (a.numeric.add (is_number t.text)).count ≠ Tri.T := by
    intro hT
    have := (count_eq_T_iff _).mp hT
    rcases hn : is_number t.text <;> simp [TriCount.add, hn] at this <;>
      first
      | exact hnum_fal this.1
      | exact hnum_fal this
  rcases hid : (f.id == p) with _ | _
  · -- distinct font: uniform becomes Maybe, the default arm gives Mixed
    right
    have huneT : ((a.uniform.add false).add true).count ≠ Tri.T := by
      intro hT
      have := (count_eq_T_iff _).mp hT
      simp [TriCount.add] at this
    rcases hq : ((a.uniform.add false).add true).count with _ | _ | q | _ <;>
      rcases hnc : (a.numeric.add (is_number t.text)).count with _ | _ | q2 | _ <;>
        simp_all
  · -- same font: uniform stays all-true, the Header arm fires
    left
    have huT : ((a.uniform.add true).add true).count = Tri.T := by
      refine (count_eq_T_iff _).mpr ?_
      simp [TriCount.add, huf]
    rcases hnc : (a.numeric.add (is_number t.text)).count with _ | _ | q2 | _ <;>
      simp_all

/-- Claim C5: in the table row assignment, a line with a previous line is
combined with the previous row iff its vertical gap to the previous line
is strictly below the threshold and no clustered horizontal ruled line's
midpoint lies strictly between the two lines; otherwise the row counter
is incremented and each run starts a fresh cell with rowspan 1 and
colspan last_col - first_col + 1. -/
theorem c5_row_combine (li : Lines) (d y : ℚ) (sp : SpanI)
    (columns : List SpanI) (st : AssignSt) (l : LineRec)
    (row : Nat) (table : Table (List Nat)) (run : SpanI × List Nat)
    (first : Nat) (more : List Nat)
    (hcols : intersecting_cols columns run.1 = first :: more) :
    (assign_combine li.hlines d (some y) sp = true ↔
      (sp.start - y < d ∧ ∀ ab ∈ li.hlines,
        ¬(y < (1/2) * (ab.1 + ab.2) ∧ sp.start > (1/2) * (ab.1 + ab.2))))
    ∧ (assign_step li d columns st l).row
        = (if assign_combine li.hlines d st.prev_end l.2.1 then st.row else st.row + 1)
    ∧ assign_run columns false row table run
        = table.set_cell run.2 row first 1 (more.getLast?.getD first - first + 1) := by
  refine ⟨?_, rfl, ?_⟩
  · unfold assign_combine
    by_cases hlt : sp.start - y < d
    · simp [hlt, List.any_eq_true]
    · simp [hlt]
  · unfold assign_run
    rw [hcols]
    rfl

/-- Claim C4 (amended): whenever the first vertical gap lies in the top
20 % of the page it is reported as the candidate top, and the last gap is
then also consulted for a candidate bottom; but a candidate bottom is only
ever reported when the first gap lies in the top 20 % or the first gap
itself lies in the bottom 20 % — a last gap in the bottom 20 % alone
produces nothing. -/
theorem c4_top_bottom (boxes : List BoxN) (bbox : Rect)
    (g : ℚ × ℚ × Nat) (rest : List (ℚ × ℚ × Nat))
    (hlen : 2 ≤ boxes.length)
    (hg : gap_list boxes (fun r => (r.min_y, r.max_y)) = g :: rest) :
    (g.1 < bbox.min_y + bbox.height * (1/5) →
      (top_bottom_gap boxes bbox).1 = some g.2.2
      ∧ ∀ g2 ∈ rest.getLast?, g2.1 > bbox.min_y + bbox.height * (4/5) →
          (top_bottom_gap boxes bbox).2 = some g2.2.2)
    ∧ (∀ b, (top_bottom_gap boxes bbox).2 = some b →
        g.1 < bbox.min_y + bbox.height * (1/5) ∨
          g.1 > bbox.min_y + bbox.height * (4/5)) := by
  have hnotlt : ¬ boxes.length < 2 := by omega
  unfold top_bottom_gap
  rw [if_neg hnotlt]
  dsimp only
  rw [hg]
  dsimp only
  constructor
  · intro htop
    rw [if_pos htop]
    rcases hl : rest.getLast? with _ | g2' <;> dsimp only
    · exact ⟨rfl, fun g2 hmem => by simp at hmem⟩
    · constructor
      · split_ifs <;> rfl
      · intro g2 hmem hbot
        have : g2' = g2 := by simpa using hmem
        subst this
        rw [if_pos hbot]
  · intro b hb
    by_cases htop : g.1 < bbox.min_y + bbox.height * (1/5)
    · left; exact htop
    · rw [if_neg htop] at hb
      by_cases hbot : g.1 > bbox.min_y + bbox.height * (4/5)
      · right; exact hbot
      · rw [if_neg hbot] at hb
        simp at hb

theorem avg_font_nonneg (items : List TextSpan)
    (hfs : ∀ s ∈ items, 0 ≤ s.font_size) :
    0 ≤ (avg (items.map (·.font_size))).getD 0 := by
  rcases items with _ | ⟨a, rest⟩
  · simp [avg]
  · unfold avg
    rw [if_neg (by simp)]
    simp only [Option.getD_some]
    refine div_nonneg ?_ (by positivity)
    apply List.sum_nonneg
    intro x hx
    simp only [List.mem_map] at hx
    rcases hx with ⟨s, hs, rfl⟩
    exact hfs s hs

/-- Claim C6 (amended): the space threshold is the claimed
min(0.5·avg font size, 2·mean clamped gap) formula, but with gaps taken
only over consecutive glyph pairs whose right member starts strictly right
of the left member's left edge; with nonnegative font sizes the threshold
is 0 when no such pair exists. -/
theorem c6_space_threshold (items : List TextSpan)
    (hfs : ∀ s ∈ items, 0 ≤ s.font_size) :
    spec_space_threshold_filtered items = analyze_word_gap items := by
  unfold spec_space_threshold_filtered analyze_word_gap
  dsimp only
  rw [List.map_congr_left (g := fun ab : (ℚ × ℚ × ℚ) × (ℚ × ℚ × ℚ) =>
    min (max (ab.2.1 - ab.1.2.1) (1/100)) ((1/4) * (ab.1.2.2 + ab.2.2.2)))
    (fun ab _ => by rw [min_comm, max_comm])]
  rcases hA : avg ((((items.flatMap (fun s =>
      (s.chars.filter (fun c =>
        match c.text.data with
        | [] => false
        | ch :: _ => !rust_is_whitespace ch)).map
        (fun c => (c.pos + s.transform.x_off,
          c.pos + s.transform.x_off + c.width, s.font_size)))).zip
      (items.flatMap (fun s =>
      (s.chars.filter (fun c =>
        match c.text.data with
        | [] => false
        | ch :: _ => !rust_is_whitespace ch)).map
        (fun c => (c.pos + s.transform.x_off,
          c.pos + s.transform.x_off + c.width, s.font_size)))).tail).filter
      (fun ab => ab.2.1 > ab.1.1)).map
      (fun ab => min (max (ab.2.1 - ab.1.2.1) (1/100))
        ((1/4) * (ab.1.2.2 + ab.2.2.2)))) with _ | m
  · rw [hA]
    simp only [Option.getD_none]
    rw [mul_zero, eq_comm, min_eq_right]
    have := avg_font_nonneg items hfs
    linarith
  · rw [hA]
    simp

theorem update_bounds_word_start_idx (w : WordBuilder) (a b : ℚ) :
    (w.update_bounds a b).word_start_idx = w.word_start_idx := by
  unfold WordBuilder.update_bounds
  split_ifs <;> rfl

theorem update_bounds_chars (w : WordBuilder) (a b : ℚ) :
    (w.update_bounds a b).chars = w.chars := by
  unfold WordBuilder.update_bounds
  split_ifs <;> rfl

theorem ws_free_append (a b : List Char) :
    ws_free (a ++ b) = (ws_free a && ws_free b) := by
  simp [ws_free, List.all_append]

theorem concat_step_inv (nfkc : List Char → List Char) (wg : ℚ)
    (st : ConcatSt) (g : GlyphData)
    (hg : g.text.all rust_is_whitespace = false → ws_free (nfkc g.text) = true)
    (hinv : ConcatInv st) : ConcatInv (concat_step nfkc wg st g) := by
  obtain ⟨h1, h2, h3, h4⟩ := hinv
  unfold concat_step
  dsimp only
  rcases hws : g.text.all rust_is_whitespace <;>
    rcases hts : st.trailing_space <;>
    simp only [hws, hts, Bool.not_true, Bool.not_false, Bool.true_and,
      Bool.false_and, Bool.and_self, if_true, if_false, Bool.and_true,
      Bool.and_false, Bool.false_eq_true, Bool.true_eq_false, ite_true,
      ite_false]
  -- trailing = false, non-whitespace glyph: gap split or continuation
  · have hfree := hg hws
    by_cases hgap : g.em_left > st.cur.end_pos + wg
    · rw [if_pos hgap]
      refine ⟨?_, ?_, ?_, ?_⟩
      · intro w hw
        dsimp only at hw
        rcases List.mem_append.mp hw with h | h
        · exact h1 w h
        · rcases List.mem_singleton.mp h with rfl
          exact h3 hts
      · simp [update_bounds_word_start_idx, WordBuilder.start_new,
          WordBuilder.add_char, WordBuilder.new]
      · intro _
        simp only [update_bounds_word_start_idx]
        show ws_free ((st.out ++ nfkc g.text).drop st.out.length) = true
        rw [List.drop_left]
        exact hfree
      · intro hcontra
        simp at hcontra
    · rw [if_neg hgap]
      refine ⟨h1, ?_, ?_, ?_⟩
      · simp only [update_bounds_word_start_idx, WordBuilder.add_char]
        calc st.cur.word_start_idx ≤ st.out.length := h2
          _ ≤ (st.out ++ nfkc g.text).length := by simp
      · intro _
        simp only [update_bounds_word_start_idx, WordBuilder.add_char]
        rw [List.drop_append_of_le_length h2, ws_free_append, h3 hts, hfree]
        rfl
      · intro hcontra
        simp at hcontra
  -- trailing = true, non-whitespace glyph: start a new word
  · refine ⟨h1, ?_, ?_, ?_⟩
    · simp [update_bounds_word_start_idx, WordBuilder.start_new,
        WordBuilder.add_char]
    · intro _
      simp only [update_bounds_word_start_idx]
      show ws_free ((st.out ++ nfkc g.text).drop st.out.length) = true
      rw [List.drop_left]
      exact hg hws
    · intro hcontra
      simp at hcontra
  -- trailing = false, whitespace glyph: end the word at the space
  · refine ⟨?_, ?_, ?_, ?_⟩
    · intro w hw
      dsimp only at hw
      rcases List.mem_append.mp hw with h | h
      · exact h1 w h
      · rcases List.mem_singleton.mp h with rfl
        exact h3 hts
    · simp [update_bounds_word_start_idx, WordBuilder.new]
    · intro hcontra
      simp at hcontra
    · intro _
      simp [update_bounds_chars, WordBuilder.new]
  -- trailing = true, whitespace glyph: nothing happens
  · refine ⟨h1, ?_, ?_, ?_⟩
    · simpa [update_bounds_word_start_idx] using h2
    · intro hcontra
      simp at hcontra
    · intro _
      rw [update_bounds_chars]
      exact h4 hts

theorem concat_fold_inv (nfkc : List Char → List Char) (wg : ℚ) :
    ∀ gs : List GlyphData,
    (∀ g ∈ gs, g.text.all rust_is_whitespace = false →
      ws_free (nfkc g.text) = true) →
    ∀ st, ConcatInv st → ConcatInv (gs.foldl (concat_step nfkc wg) st) := by
  intro gs
  induction gs with
  | nil => intro _ st h; exact h
  | cons g rest ih =>
    intro hgs st h
    rw [List.foldl_cons]
    exact ih (fun g' hg' => hgs g' (List.mem_cons_of_mem g hg'))
      _ (concat_step_inv nfkc wg st g (hgs g (List.mem_cons_self g rest)) h)

/-- Claim C7 (amended): provided every glyph treated as non-whitespace has
whitespace-free normalized text, every Word produced by the word assembler
has whitespace-free text — in particular no inner newline and no leading
or trailing whitespace.  (Glyphs whose extracted text mixes whitespace and
other characters, or whose normalization introduces whitespace, escape the
guarantee.) -/
theorem c7_word_text (nfkc : List Char → List Char) (out : List Char)
    (items : List TextSpan)
    (hgs : ∀ g ∈ glyph_stream items, g.text.all rust_is_whitespace = false →
      ws_free (nfkc g.text) = true) :
    ∀ w ∈ (concat_text nfkc out items).words, ws_free w.text = true := by
  unfold concat_text
  dsimp only
  have hinv0 : ConcatInv ⟨out, [], WordBuilder.new out.length,
      (out.getLast?.map rust_is_whitespace).getD true⟩ := by
    refine ⟨fun w hw => absurd hw (List.not_mem_nil w), le_refl _, ?_, fun _ => rfl⟩
    intro _
    show ws_free (out.drop out.length) = true
    rw [List.drop_length]
    rfl
  have hinv := concat_fold_inv nfkc (analyze_word_gap items) (glyph_stream items)
    hgs _ hinv0
  obtain ⟨h1, h2, h3, h4⟩ := hinv
  generalize hst : (glyph_stream items).foldl
      (concat_step nfkc (analyze_word_gap items))
      ⟨out, [], WordBuilder.new out.length,
        (out.getLast?.map rust_is_whitespace).getD true⟩ = stF at h1 h2 h3 h4 ⊢
  rcases hemp : stF.cur.is_empty
  · simp only [hemp, Bool.not_false, if_true, ite_true]
    intro w hw
    rcases List.mem_append.mp hw with h | h
    · exact h1 w h
    · rcases List.mem_singleton.mp h with rfl
      have hts : stF.trailing_space = false := by
        rcases hts2 : stF.trailing_space
        · rfl
        · exfalso
          have := h4 hts2
          rw [WordBuilder.is_empty, this] at hemp
          simp at hemp
      exact h3 hts
  · simp only [hemp, Bool.not_true, if_false, ite_false]
    exact h1

theorem grid_shape_ok_list_iff (cells : List Node) :
    grid_shape_ok_list cells = true ↔ ∀ n ∈ cells, grid_shape_ok n = true := by
  induction cells with
  | nil => simp [grid_shape_ok_list]
  | cons n rest ih =>
    rw [show grid_shape_ok_list (n :: rest)
      = (grid_shape_ok n && grid_shape_ok_list rest) from rfl]
    simp [ih]

theorem strict_asc_cons (a : ℚ) (l : List ℚ)
    (hhead : ∀ b ∈ l.head?, a < b) (hl : strict_asc l = true) :
    strict_asc (a :: l) = true := by
  rcases l with _ | ⟨b, l'⟩
  · rfl
  · have hab : a < b := hhead b rfl
    unfold strict_asc at hl ⊢
    simp only [List.tail_cons, List.zip_cons_cons, List.all_cons] at hl ⊢
    simp [hab, hl]

theorem gaps_go_asc (t : ℚ) (f : Rect → ℚ × ℚ) (ht : 0 < t) :
    ∀ (bs : List BoxN) (lm : ℚ),
    (∀ b ∈ bs, (f b.1).1 ≤ (f b.1).2) →
    strict_asc (gaps_go t f lm bs) = true
      ∧ ∀ m ∈ gaps_go t f lm bs, lm + t / 2 ≤ m := by
  intro bs
  induction bs with
  | nil => intro lm _; exact ⟨rfl, by intro m hm; simp [gaps_go] at hm⟩
  | cons b rest ih =>
    intro lm hno
    have hb := hno b (List.mem_cons_self b rest)
    have hrest := fun b' hb' => hno b' (List.mem_cons_of_mem b hb')
    have hih := ih (max (f b.1).2 lm) hrest
    rw [show gaps_go t f lm (b :: rest)
      = (if (f b.1).1 - lm ≥ t then [(lm + (f b.1).1) / 2] else [])
        ++ gaps_go t f (max (f b.1).2 lm) rest from rfl]
    by_cases hc : (f b.1).1 - lm ≥ t
    · rw [if_pos hc]
      simp only [List.singleton_append]
      constructor
      · refine strict_asc_cons _ _ ?_ hih.1
        intro m hm
        have hmem : m ∈ gaps_go t f (max (f b.1).2 lm) rest :=
          List.mem_of_mem_head? hm
        have h2 := hih.2 m hmem
        have h3 : (lm + (f b.1).1) / 2 ≤ (f b.1).1 - t / 2 := by linarith
        have h4 : (f b.1).1 ≤ max (f b.1).2 lm := le_trans hb (le_max_left _ _)
        linarith
      · intro m hm
        rcases List.mem_cons.mp hm with rfl | hm2
        · linarith
        · have h2 := hih.2 m hm2
          have h4 : lm ≤ max (f b.1).2 lm := le_max_right _ _
          linarith
    · rw [if_neg hc, List.nil_append]
      refine ⟨hih.1, ?_⟩
      intro m hm
      have h2 := hih.2 m hm
      have h4 : lm ≤ max (f b.1).2 lm := le_max_right _ _
      linarith

theorem gaps_asc (t : ℚ) (bs : List BoxN) (f : Rect → ℚ × ℚ) (ht : 0 < t)
    (hno : ∀ b ∈ bs, (f b.1).1 ≤ (f b.1).2) :
    strict_asc (gaps t bs f) = true := by
  rcases bs with _ | ⟨b0, rest⟩
  · rfl
  · exact (gaps_go_asc t f ht rest (f b0.1).2
      (fun b' hb' => hno b' (List.mem_cons_of_mem b0 hb'))).1

theorem overlapping_go_shape (avg_height : ℚ) :
    ∀ (fuel : Nat) (yc : ℚ) (bs : List BoxN),
    (overlapping_lines_go avg_height fuel yc bs).1.length
        = (overlapping_lines_go avg_height fuel yc bs).2.length + 1
      ∧ ∀ n ∈ (overlapping_lines_go avg_height fuel yc bs).1,
          grid_shape_ok n = true := by
  intro fuel
  induction fuel with
  | zero =>
    intro yc bs
    refine ⟨rfl, ?_⟩
    intro n hn
    rcases List.mem_singleton.mp hn with rfl
    rfl
  | succ fuel ih =>
    intro yc bs
    rw [show overlapping_lines_go avg_height (fuel + 1) yc bs =
      (match bs.findIdx? (fun b => b.1.center_y > (1/2) * avg_height + yc) with
       | none => ([Node.singleton (sort_x bs)], [])
       | some i =>
         match ((sort_x (bs.take i)).map (·.1)).foldl (fun acc r =>
             match acc with
             | none => some r
             | some a => some (a.union_rect r)) none with
         | none => ([Node.Final []], [])
         | some bbox =>
           ((Node.singleton (sort_x (bs.take i))) ::
             (overlapping_lines_go avg_height fuel
               (((bs.drop i).headD (⟨0, 0, 0, 0⟩, 0)).1.center_y) (bs.drop i)).1,
            bbox.max_y ::
             (overlapping_lines_go avg_height fuel
               (((bs.drop i).headD (⟨0, 0, 0, 0⟩, 0)).1.center_y) (bs.drop i)).2))
      from rfl]
    rcases h1 : bs.findIdx? (fun b => b.1.center_y > (1/2) * avg_height + yc)
        with _ | i
    · rw [h1]
      refine ⟨rfl, ?_⟩
      intro n hn
      rcases List.mem_singleton.mp hn with rfl
      rfl
    · rw [h1]
      dsimp only
      rcases h2 : ((sort_x (bs.take i)).map (·.1)).foldl (fun acc r =>
          match acc with
          | none => some r
          | some a => some (a.union_rect r)) none with _ | bbox
      · rw [h2]
        refine ⟨rfl, ?_⟩
        intro n hn
        rcases List.mem_singleton.mp hn with rfl
        rfl
      · rw [h2]
        dsimp only
        have hih := ih (((bs.drop i).headD (⟨0, 0, 0, 0⟩, 0)).1.center_y)
          (bs.drop i)
        refine ⟨by simp only [List.length_cons, hih.1], ?_⟩
        intro n hn
        rcases List.mem_cons.mp hn with rfl | hn2
        · rfl
        · exact hih.2 n hn2

theorem overlapping_lines_shape (boxes : List BoxN) :
    grid_shape_ok (overlapping_lines boxes) = true := by
  unfold overlapping_lines
  dsimp only
  rcases h1 : avg ((sort_y boxes).map (fun b => b.1.height)) with _ | ah
  · rw [h1]
    rfl
  · rw [h1]
    dsimp only
    rcases h2 : sort_y boxes with _ | ⟨b0, rest⟩
    · rfl
    · dsimp only
      have hsh := overlapping_go_shape ah ((b0 :: rest).length + 1)
        b0.1.center_y (b0 :: rest)
      unfold overlapping_result
      rcases h3 : (overlapping_lines_go ah ((b0 :: rest).length + 1)
          b0.1.center_y (b0 :: rest)).1 with _ | ⟨l1, ls⟩
      · rfl
      · rcases ls with _ | ⟨l2, ls'⟩
        · exact hsh.2 l1 (by rw [h3]; exact List.mem_cons_self _ _)
        · rw [h3] at hsh
          unfold grid_shape_ok
          rw [Bool.and_eq_true, Bool.and_eq_true]
          refine ⟨⟨?_, rfl⟩, ?_⟩
          · have hlen := hsh.1
            simp only [List.length_cons] at hlen ⊢
            simp [hlen]
          · rw [grid_shape_ok_list_iff]
            intro n hn
            exact hsh.2 n hn

theorem line_final_shape (l : LineRec) : grid_shape_ok (line_final l).2 = true := rfl

theorem vparts_go_shape (spans : List TextSpan) (li : Lines) :
    ∀ (fuel : Nat) (ls : List LineRec),
    ∀ p ∈ vparts_go spans li fuel ls, grid_shape_ok p.2 = true := by
  intro fuel
  induction fuel with
  | zero =>
    intro ls p hp
    rw [show vparts_go spans li 0 ls = ls.map line_final from rfl] at hp
    rcases List.mem_map.mp hp with ⟨l, _, rfl⟩
    exact line_final_shape l
  | succ fuel ih =>
    intro ls p hp
    rw [show vparts_go spans li (fuel + 1) ls =
      (match ls.findIdx? (fun l => l.1 == LineTag.Unknown || l.1 == LineTag.TableT) with
       | none => ls.map line_final
       | some q =>
         (ls.take q).map line_final
           ++ [section_table spans li ((ls.drop q).take
                (1 + (((ls.drop q).drop 1).findIdx?
                  (fun l => l.1 == LineTag.Text)).getD ((ls.drop q).length - 1)))]
           ++ vparts_go spans li fuel ((ls.drop q).drop
                (1 + (((ls.drop q).drop 1).findIdx?
                  (fun l => l.1 == LineTag.Text)).getD ((ls.drop q).length - 1)))) from rfl]
      at hp
    rcases h : ls.findIdx?
        (fun l => l.1 == LineTag.Unknown || l.1 == LineTag.TableT) with _ | q
    · rw [h] at hp
      rcases List.mem_map.mp hp with ⟨l, _, rfl⟩
      exact line_final_shape l
    · rw [h] at hp
      rcases List.mem_append.mp hp with h2 | h2
      · rcases List.mem_append.mp h2 with h3 | h3
        · rcases List.mem_map.mp h3 with ⟨l, _, rfl⟩
          exact line_final_shape l
        · rcases List.mem_singleton.mp h3 with rfl
          rfl
      · exact ih _ p h2

theorem split2_shape (boxes : List BoxN) (spans : List TextSpan) (li : Lines) :
    grid_shape_ok (split2 boxes spans li) = true := by
  unfold split2
  dsimp only
  by_cases hv : (vparts_go spans li (split2_lines spans boxes).length.succ
      (split2_lines spans boxes)).length > 1
  · rw [if_pos hv]
    rw [show ∀ (y : List ℚ) (cells : List Node),
        grid_shape_ok (Node.Grid [] y cells NodeTag.Complex)
          = ((cells.length == (List.length [] + 1) * (y.length + 1))
            && strict_asc [] && grid_shape_ok_list cells) from fun _ _ => rfl]
    rw [Bool.and_eq_true, Bool.and_eq_true]
    refine ⟨⟨?_, rfl⟩, ?_⟩
    · generalize hV : vparts_go spans li (split2_lines spans boxes).length.succ
        (split2_lines spans boxes) = V at hv
      rcases V with _ | ⟨v0, vrest⟩
      · simp at hv
      · simp only [List.length_map, List.length_zip, List.length_cons,
          List.tail_cons, List.length_nil, beq_iff_eq]
        have : min (vrest.length + 1) vrest.length = vrest.length :=
          min_eq_right (Nat.le_succ _)
        simp [this]
    · rw [grid_shape_ok_list_iff]
      intro n hn
      rcases List.mem_map.mp hn with ⟨p, hp, rfl⟩
      exact vparts_go_shape spans li _ _ p hp
  · rw [if_neg hv]
    rcases hL : (vparts_go spans li (split2_lines spans boxes).length.succ
        (split2_lines spans boxes)).getLast? with _ | p
    · rfl
    · exact vparts_go_shape spans li _ _ p (List.mem_of_mem_getLast? hL)

theorem sum_const_nat {α : Type} (l : List α) (k : Nat) :
    (l.map (fun _ => k)).sum = l.length * k := by
  induction l with
  | nil => simp
  | cons a l ih => simp [ih, Nat.succ_mul, Nat.add_comm]

/-- Claim C8 (amended): every Grid node produced by the recursive splitter
on normalized boxes has exactly (|x_splits|+1)·(|y_splits|+1) cells and
strictly ascending x_splits; the original claim's strict ascent of
y_splits fails for the vertical-wrapping grids (see the counterexample). -/
theorem c8_grid_shape (spans : List TextSpan) (li : Lines) :
    ∀ (fuel : Nat) (boxes : List BoxN),
    (∀ b ∈ boxes, b.1.Normalized) →
    grid_shape_ok (split spans li fuel boxes) = true := by
  intro fuel
  induction fuel with
  | zero => intro boxes _; rfl
  | succ fuel ih =>
    intro boxes hnorm
    unfold split
    by_cases hlen : boxes.length < 2
    · simp only [hlen, if_true]
      rfl
    · simp only [hlen, if_false]
      have hnorm3 : ∀ b ∈ sort_x (sort_y (sort_x boxes)), b.1.Normalized := by
        intro b hb
        exact hnorm b ((sort_x_perm boxes).mem_iff.mp
          ((sort_y_perm (sort_x boxes)).mem_iff.mp
            ((sort_x_perm (sort_y (sort_x boxes))).mem_iff.mp hb)))
      have hnorm4 : ∀ b ∈ sort_y (sort_x (sort_y (sort_x boxes))),
          b.1.Normalized := by
        intro b hb
        exact hnorm3 b ((sort_y_perm _).mem_iff.mp hb)
      have key : ∀ (mx my : Option (ℚ × ℚ)),
          grid_shape_ok (match mx, my with
            | none, none => Node.singleton (sort_x (sort_y (sort_x boxes)))
            | mxg, myg =>
              (fun (tx ty : ℚ) =>
                (fun (xgs ygs : List ℚ) =>
                  if xgs.length = 0 ∧ ygs.length = 0 then
                    overlapping_lines (sort_x (sort_y (sort_x boxes)))
                  else if xgs.length > 1 ∧ ygs.length > 1 then
                    split2 (sort_x (sort_y (sort_x boxes))) spans li
                  else
                    (fun (cells : List Node) =>
                      Node.Grid xgs ygs cells
                        (if ygs.length = 0 then
                          if cells.all (fun n => n.tag ≤ NodeTag.Line) then NodeTag.Line
                          else NodeTag.Complex
                        else if xgs.length = 0 then
                          if cells.all (fun n => n.tag ≤ NodeTag.Line) then NodeTag.Paragraph
                          else NodeTag.Complex
                        else NodeTag.Complex))
                    (if xgs.length > 0 then
                      (split_by (fun r => r.min_y) (sort_y (sort_x (sort_y (sort_x boxes)))) ygs).flatMap
                        (fun row => (split_by (fun r => r.min_x) (sort_x row) xgs).map
                          (fun cell => split spans li fuel (sort_y cell)))
                    else
                      (split_by (fun r => r.min_y) (sort_y (sort_x (sort_y (sort_x boxes)))) ygs).map
                        (fun row => split spans li fuel row)))
                (gaps tx (sort_x (sort_y (sort_x boxes))) (fun r => (r.min_x, r.max_x)))
                (gaps ty (sort_y (sort_x boxes)) (fun r => (r.min_y, r.max_y))))
              (max ((match mxg, myg with
                  | some xg, some yg => max xg.1 yg.1
                  | some xg, none => xg.1
                  | none, some xg => xg.1
                  | none, none => 0) * (1/2)) 1)
              (max ((match mxg, myg with
                  | some xg, some yg => max xg.1 yg.1
                  | some xg, none => xg.1
                  | none, some xg => xg.1
                  | none, none => 0) * (1/2)) (1/10))
            : Node) = true := by
        intro mx my
        have main : ∀ (tx ty : ℚ), 0 < tx →
            grid_shape_ok
              ((fun (xgs ygs : List ℚ) =>
                  if xgs.length = 0 ∧ ygs.length = 0 then
                    overlapping_lines (sort_x (sort_y (sort_x boxes)))
                  else if xgs.length > 1 ∧ ygs.length > 1 then
                    split2 (sort_x (sort_y (sort_x boxes))) spans li
                  else
                    (fun (cells : List Node) =>
                      Node.Grid xgs ygs cells
                        (if ygs.length = 0 then
                          if cells.all (fun n => n.tag ≤ NodeTag.Line) then NodeTag.Line
                          else NodeTag.Complex
                        else if xgs.length = 0 then
                          if cells.all (fun n => n.tag ≤ NodeTag.Line) then NodeTag.Paragraph
                          else NodeTag.Complex
                        else NodeTag.Complex))
                    (if xgs.length > 0 then
                      (split_by (fun r => r.min_y) (sort_y (sort_x (sort_y (sort_x boxes)))) ygs).flatMap
                        (fun row => (split_by (fun r => r.min_x) (sort_x row) xgs).map
                          (fun cell => split spans li fuel (sort_y cell)))
                    else
                      (split_by (fun r => r.min_y) (sort_y (sort_x (sort_y (sort_x boxes)))) ygs).map
                        (fun row => split spans li fuel row)))
                (gaps tx (sort_x (sort_y (sort_x boxes))) (fun r => (r.min_x, r.max_x)))
                (gaps ty (sort_y (sort_x boxes)) (fun r => (r.min_y, r.max_y)))
              : Node) = true := by
          intro tx ty htx
          have hxasc : strict_asc (gaps tx (sort_x (sort_y (sort_x boxes)))
              (fun r => (r.min_x, r.max_x))) = true := by
            refine gaps_asc tx _ _ htx ?_
            intro b hb
            exact (hnorm3 b hb).1
          generalize hgx : (gaps tx (sort_x (sort_y (sort_x boxes)))
            (fun r => (r.min_x, r.max_x))) = xgs at hxasc
          generalize (gaps ty (sort_y (sort_x boxes))
            (fun r => (r.min_y, r.max_y))) = ygs
          dsimp only
          by_cases h00 : xgs.length = 0 ∧ ygs.length = 0
          · simp only [h00, if_true]
            exact overlapping_lines_shape _
          · simp only [h00, if_false]
            by_cases h11 : xgs.length > 1 ∧ ygs.length > 1
            · simp only [h11, if_true]
              exact split2_shape _ spans li
            · simp only [h11, if_false]
              by_cases hxg : xgs.length > 0
              · simp only [hxg, if_true]
                rw [show ∀ (cells : List Node) (t : NodeTag),
                    grid_shape_ok (Node.Grid xgs ygs cells t)
                      = ((cells.length == (xgs.length + 1) * (ygs.length + 1))
                        && strict_asc xgs && grid_shape_ok_list cells)
                  from fun _ _ => rfl]
                rw [Bool.and_eq_true, Bool.and_eq_true]
                refine ⟨⟨?_, hxasc⟩, ?_⟩
                · rw [List.length_flatMap]
                  rw [List.map_congr_left (g := fun _ => xgs.length + 1)
                    (fun row _ => by
                      show ((split_by (fun r => r.min_x) (sort_x row) xgs).map
                        (fun cell => split spans li fuel (sort_y cell))).length
                          = xgs.length + 1
                      rw [List.length_map, split_by_length])]
                  rw [sum_const_nat, split_by_length, Nat.mul_comm]
                  exact beq_self_eq_true _
                · rw [grid_shape_ok_list_iff]
                  intro n hn
                  rcases List.mem_flatMap.mp hn with ⟨row, hrow, hn2⟩
                  rcases List.mem_map.mp hn2 with ⟨cell, hcell, rfl⟩
                  refine ih (sort_y cell) ?_
                  intro b hb
                  exact hnorm4 b (split_by_mem_subset _ _ _ _ hrow b
                    ((sort_x_perm row).mem_iff.mp
                      (split_by_mem_subset _ _ _ _ hcell b
                        ((sort_y_perm cell).mem_iff.mp hb))))
              · simp only [hxg, if_false]
                have hx0 : xgs.length = 0 := by omega
                rw [show ∀ (cells : List Node) (t : NodeTag),
                    grid_shape_ok (Node.Grid xgs ygs cells t)
                      = ((cells.length == (xgs.length + 1) * (ygs.length + 1))
                        && strict_asc xgs && grid_shape_ok_list cells)
                  from fun _ _ => rfl]
                rw [Bool.and_eq_true, Bool.and_eq_true]
                refine ⟨⟨?_, hxasc⟩, ?_⟩
                · rw [List.length_map, split_by_length, hx0]
                  simp
                · rw [grid_shape_ok_list_iff]
                  intro n hn
                  rcases List.mem_map.mp hn with ⟨row, hrow, rfl⟩
                  refine ih row ?_
                  intro b hb
                  exact hnorm4 b (split_by_mem_subset _ _ _ _ hrow b hb)
        rcases mx with _ | xg
        all_goals rcases my with _ | yg
        · rfl
        all_goals exact main _ _ (lt_of_lt_of_le zero_lt_one (le_max_right _ _))
      exact key _ _

/-- Claim C2 (amended): the flow emitter computes, for each non-empty table
cell, the CellContent of concatenated text and union bbox, but
`Flow::add_table` has an empty body and `Flow` has no table field, so the
computed table is discarded and the emitted Flow is unchanged by a Table
node. -/
theorem c2_table_discarded (nfkc : List Char → List Char)
    (spans : List TextSpan) (flow : Flow) (table : Table (List Nat)) (x : ℚ) :
    flow_build nfkc spans flow (Node.TableNode table) x = flow := by
  rw [show flow_build nfkc spans flow (Node.TableNode table) x =
    (match union_rects (table.values.flatMap (fun v =>
        (v.value.filterMap (fun i => spans.get? i)).map (·.rect))) with
     | some _bbox => (flow.add_table (table_cell_contents nfkc spans table))
     | none => flow) from rfl]
  rcases h2 : union_rects (table.values.flatMap (fun v =>
      (v.value.filterMap (fun i => spans.get? i)).map (·.rect))) with _ | bb <;>
    rw [h2] <;> rfl

/-! # Concrete counterexamples and witnesses

Core `Rat` arithmetic is `@[irreducible]`; the kernel evaluation used by
`decide` below needs it reducible. -/

set_option allowUnsafeReducibility true

attribute [reducible] Rat.add Rat.sub Rat.neg Rat.mul Rat.div Rat.inv Rat.blt Rat.normalize

/-- Counterexample to claim C1's final clause: thirteen spans, trimmer
bypassed (`without_header_and_footer = false`), yet index 4 is missing from
the tree's indices — the table detector's `set_cell` overwrote its cell. -/
theorem c1_counterexample :
    c1_spans.length = 13
    ∧ Node.indices (build c1_spans c1_bbox [] false)
        = [0, 1, 2, 3, 5, 6, 7, 8, 9, 10, 11, 12] := by
  exact ⟨by decide, by decide⟩

/-- Counterexample to claim C2: the one-cell table yields a computed
CellContent with text `"x"`, yet the emitted Flow is exactly the input
Flow — nothing is recorded. -/
theorem c2_counterexample :
    ((table_cell_contents id [c2_span] c2_table).values.map
        (fun cl => cl.value.text)) = [['x']]
    ∧ flow_build id [c2_span] Flow.new (Node.TableNode c2_table) 0 = Flow.new := by
  exact ⟨by decide, by decide⟩

/-- Claim C3's failing input: five spans in four table lines; the runs of
the second line get overlapping column ranges, the second `set_cell`
overwrites the first cell, and index 1 vanishes from the tree. -/
theorem c3_index_dropped :
    c3_boxes.map Prod.snd = [0, 1, 2, 3, 4]
    ∧ Node.indices (split2 c3_boxes c3_spans (analyze_lines []))
        = [0, 2, 3, 4] := by
  exact ⟨by decide, by decide⟩

/-- Counterexample to claim C4: the last vertical gap starts at y = 85,
inside the bottom 20 % of the 100-unit page, yet no candidate bottom is
reported because the first gap (y = 40) is in neither margin band. -/
theorem c4_counterexample :
    (gap_list c4_boxes (fun r => (r.min_y, r.max_y))).getLast?
        = some (85, 90, 2)
    ∧ ((85 : ℚ) > c4_bbox.min_y + c4_bbox.height * (4/5)) = True
    ∧ top_bottom_gap c4_boxes c4_bbox = (none, none) := by
  refine ⟨by decide, ?_, by decide⟩
  simp only [eq_iff_iff, iff_true]
  show (85 : ℚ) > 0 + 100 * (4/5)
  norm_num

/-- Witness for claim C4's theorem at a concrete input: first gap in the
top 20 %, last gap in the bottom 20 %, both candidates reported. -/
theorem c4_witness :
    gap_list c4w_boxes (fun r => (r.min_y, r.max_y)) = [(5, 10, 1), (81, 95, 2)]
    ∧ (top_bottom_gap c4w_boxes c4_bbox).1 = some 1
    ∧ (top_bottom_gap c4w_boxes c4_bbox).2 = some 2 := by
  have hg : gap_list c4w_boxes (fun r => (r.min_y, r.max_y))
      = [(5, 10, 1), (81, 95, 2)] := by decide
  have h := c4_top_bottom c4w_boxes c4_bbox (5, 10, 1) [(81, 95, 2)]
    (by decide) hg
  have htop : ((5 : ℚ), (10 : ℚ), 1).1 < c4_bbox.min_y + c4_bbox.height * (1/5) := by
    decide
  refine ⟨hg, (h.1 htop).1, ?_⟩
  exact (h.1 htop).2 (81, 95, 2) (by decide) (by decide)

/-- Witness for claim C5's theorem: a run over one column, combine
negative, so the cell is set with rowspan 1 and colspan 1. -/
theorem c5_witness :
    intersecting_cols [(⟨0, 1⟩ : SpanI)] ((⟨0, 1⟩ : SpanI), [3]).1 = [0]
    ∧ assign_run [(⟨0, 1⟩ : SpanI)] false 2 (Table.empty (List Nat) 3 1)
        ((⟨0, 1⟩ : SpanI), [3])
      = (Table.empty (List Nat) 3 1).set_cell [3] 2 0 1
          (([] : List Nat).getLast?.getD 0 - 0 + 1) := by
  have hc : intersecting_cols [(⟨0, 1⟩ : SpanI)] ((⟨0, 1⟩ : SpanI), [3]).1
      = [0] := by decide
  exact ⟨hc, (c5_row_combine ⟨[(2, 4)], [], []⟩ 5 0 ⟨1, 2⟩ [⟨0, 1⟩]
    ⟨0, none, Table.empty (List Nat) 3 1⟩ (LineTag.Unknown, ⟨0, 1⟩, []) 2
    (Table.empty (List Nat) 3 1) (⟨0, 1⟩, [3]) 0 [] hc).2.2⟩

/-- Counterexample to claim C6: two glyphs laid out right-to-left; the
code's filter discards their pair and yields threshold 0, while the
claimed formula averages the clamped gap and yields 1/50. -/
theorem c6_counterexample :
    analyze_word_gap [c6_span] = 0
    ∧ spec_space_threshold [c6_span] = 1/50 := by
  exact ⟨by decide, by decide⟩

/-- Witness for claim C6's theorem: on the concrete span the filtered spec
formula and the code agree. -/
theorem c6_witness :
    spec_space_threshold_filtered [c6_span] = analyze_word_gap [c6_span] :=
  c6_space_threshold [c6_span] (by decide)

/-- Counterexample to claim C7: a single glyph whose extracted text mixes
a newline with letters produces the word `"a\nb"` — an inner newline. -/
theorem c7_counterexample :
    ((concat_text id [] [c7_span]).words.map (fun w => w.text))
        = [['a', '\n', 'b']]
    ∧ ws_free ['a', '\n', 'b'] = false := by
  exact ⟨by decide, by decide⟩

/-- Witness for claim C7's theorem: with pure glyphs every produced word is
whitespace-free. -/
theorem c7_witness :
    (concat_text id [] [c7w_span]).words.all (fun w => ws_free w.text) = true := by
  refine List.all_eq_true.mpr ?_
  intro w hw
  exact c7_word_text id [] [c7w_span] (by decide) w hw

/-- Counterexample to claim C8: the vertical-wrapping grid of the table
detector on nine overlapping-line spans has y_splits `[15/2, 25/4]`, which
is not ascending. -/
theorem c8_counterexample :
    node_grid_y (split2 c8_boxes c8_spans (analyze_lines []))
        = [15/2, 25/4]
    ∧ strict_asc [15/2, 25/4] = false := by
  exact ⟨by decide, by decide⟩

/-- Witness for claim C8's theorem at the concrete nine-box input. -/
theorem c8_witness :
    grid_shape_ok (split c8_spans (analyze_lines []) 10 c8_boxes) = true :=
  c8_grid_shape c8_spans (analyze_lines []) 10 c8_boxes (by decide)

/-- Witness for claim C9's theorem: one bold span classifies as Header and
stays Header (or Mixed) after appending another bold span. -/
theorem c9_witness :
    classify [bold_span] = Class.Header
    ∧ (classify ([bold_span] ++ [bold_span]) = Class.Header
        ∨ classify ([bold_span] ++ [bold_span]) = Class.Mixed) :=
  ⟨by decide, c9_classifier_monotone [bold_span] bold_span ⟨"Arial-Bold", 7⟩
    (by decide) rfl (by decide)⟩

end PdfText
